import Mathlib

/-!
Verification of the `ic-dbms-canister` storage and transaction engine.

The definitions below are a shallow embedding of the Rust sources:
machine integers become `Nat`/`Int` (with explicit modular arithmetic where
overflow matters), `Vec<u8>`/`String` payloads become `List Nat` byte lists,
fallible functions return `Except`, and Rust's derived `Ord` instances become
explicit `Ordering`-valued comparison functions.
-/

namespace IcDbms

/-! ### Ordering utilities

Rust's `Ordering` maps to Lean's `Ordering`.  `Ordering::then` is
`Ordering.then`.  The derived `Ord` of a primitive numeric type is the
comparison of a linear order, written `ltCmp`.
-/

/-- Comparator of a linear order: the semantics of Rust's `Ord` on primitive
numeric types (`u8`, `u16`, `u32`, `u64`, `i32`, `i64`, `bool`,
`rust_decimal::Decimal`). -/
def ltCmp {α : Type _} [LinearOrder α] (a b : α) : Ordering :=
  if a < b then .lt else if b < a then .gt else .eq

/-- Lexicographic comparator on lists: the semantics of Rust's derived `Ord`
on `Vec<T>`, slices and `String` (byte-wise). -/
def cmpList {α : Type _} (c : α → α → Ordering) : List α → List α → Ordering
  | [], [] => .eq
  | [], _ :: _ => .lt
  | _ :: _, [] => .gt
  | x :: xs, y :: ys => (c x y).then (cmpList c xs ys)

/-- Pair comparator: the semantics of Rust's derived `Ord` on a struct,
comparing fields in declaration order. -/
def prodCmp {α β : Type _} (c : α → α → Ordering) (d : β → β → Ordering)
    (x y : α × β) : Ordering :=
  (c x.1 y.1).then (d x.2 y.2)

/-- A lawful total comparator: antisymmetric swap, reflective equality and
transitive strict order.  Every Rust `Ord` instance satisfies this. -/
structure IsCmp {α : Type _} (c : α → α → Ordering) : Prop where
  swap_eq : ∀ a b, c b a = (c a b).swap
  eq_iff : ∀ a b, c a b = .eq ↔ a = b
  lt_trans : ∀ {a b d}, c a b = .lt → c b d = .lt → c a d = .lt

/-! ### Data model: `Value` and its derived total order

From `src/ic-dbms-canister/src/dbms/value.rs`: a 13-variant tagged union with
`#[derive(PartialEq, Eq, PartialOrd, Ord)]`.  The derived order compares the
variant by declaration position first, then the payload.  Payload types
(`src/dbms/types/*.rs`):
`Blob(Vec<u8>)`, `Boolean(bool)`, `Date{year:u16,month:u8,day:u8}`,
`DateTime{year,month,day,hour,minute,second,microsecond,tz_offset_minutes}`,
`Decimal(rust_decimal::Decimal)` (numeric order, modelled as `Rat`),
`Int32(i32)`/`Int64(i64)` as `Int`, `Principal` (bytes), `Text(String)`
(byte-wise order, modelled as a UTF-8 byte list), `Uint32(u32)`/`Uint64(u64)`
as `Nat`, `Uuid` (16 bytes).
-/

/-- `types::Date` from `src/ic-dbms-canister/src/dbms/types/date.rs`:
`{year: u16, month: u8, day: u8}`, derived `Ord` = field-lexicographic. -/
structure Date where
  year : Nat
  month : Nat
  day : Nat
deriving DecidableEq

/-- `types::DateTime` from `src/ic-dbms-canister/src/dbms/types/datetime.rs`:
eight fields, derived `Ord` = field-lexicographic, timezone offset is `i16`. -/
structure DateTime where
  year : Nat
  month : Nat
  day : Nat
  hour : Nat
  minute : Nat
  second : Nat
  microsecond : Nat
  tzOffsetMinutes : Int
deriving DecidableEq

/-- `Value` from `src/ic-dbms-canister/src/dbms/value.rs` lines 4-19, variants
in declaration order (this order is what the derived `Ord` compares first). -/
inductive Value where
  | blob (bytes : List Nat)
  | boolean (b : Bool)
  | date (d : Date)
  | dateTime (d : DateTime)
  | decimal (q : Rat)
  | int32 (n : Int)
  | int64 (n : Int)
  | null
  | principal (bytes : List Nat)
  | text (bytes : List Nat)
  | uint32 (n : Nat)
  | uint64 (n : Nat)
  | uuid (bytes : List Nat)
deriving DecidableEq

namespace Value

/-- Declaration position of a variant, the first key of the derived `Ord`. -/
def varIdx : Value → Nat
  | .blob _ => 0
  | .boolean _ => 1
  | .date _ => 2
  | .dateTime _ => 3
  | .decimal _ => 4
  | .int32 _ => 5
  | .int64 _ => 6
  | .null => 7
  | .principal _ => 8
  | .text _ => 9
  | .uint32 _ => 10
  | .uint64 _ => 11
  | .uuid _ => 12

end Value

/-- Lexicographic key of a `Date` (derived `Ord` compares fields in order). -/
def Date.key (d : Date) : Nat × Nat × Nat := (d.year, d.month, d.day)

/-- Derived `Ord` of `types::Date`. -/
def Date.cmp (a b : Date) : Ordering :=
  prodCmp ltCmp (prodCmp ltCmp ltCmp) a.key b.key

/-- Lexicographic key of a `DateTime`. -/
def DateTime.key (d : DateTime) :
    Nat × Nat × Nat × Nat × Nat × Nat × Nat × Int :=
  (d.year, d.month, d.day, d.hour, d.minute, d.second, d.microsecond,
    d.tzOffsetMinutes)

/-- Derived `Ord` of `types::DateTime`. -/
def DateTime.cmp (a b : DateTime) : Ordering :=
  prodCmp ltCmp (prodCmp ltCmp (prodCmp ltCmp (prodCmp ltCmp (prodCmp ltCmp
    (prodCmp ltCmp (prodCmp ltCmp ltCmp)))))) a.key b.key

namespace Value

/-- Payload comparison of two values of the same variant; `.eq` on mixed
variants (the variant comparison below short-circuits those). -/
def payloadCmp : Value → Value → Ordering
  | .blob a, .blob b => cmpList ltCmp a b
  | .boolean a, .boolean b => ltCmp a b
  | .date a, .date b => Date.cmp a b
  | .dateTime a, .dateTime b => DateTime.cmp a b
  | .decimal a, .decimal b => ltCmp a b
  | .int32 a, .int32 b => ltCmp a b
  | .int64 a, .int64 b => ltCmp a b
  | .null, .null => .eq
  | .principal a, .principal b => cmpList ltCmp a b
  | .text a, .text b => cmpList ltCmp a b
  | .uint32 a, .uint32 b => ltCmp a b
  | .uint64 a, .uint64 b => ltCmp a b
  | .uuid a, .uuid b => cmpList ltCmp a b
  | _, _ => .eq

/-- The derived `Ord` of `Value` (`value.rs` line 4): variants compare by
declaration position, equal variants compare their payload. -/
def cmp (a b : Value) : Ordering :=
  (ltCmp a.varIdx b.varIdx).then (payloadCmp a b)

/-- `Value::is_null` from `value.rs`. -/
def isNull : Value → Bool
  | .null => true
  | _ => false

end Value

namespace Value

/-- Strict payload order between values of the same variant. -/
inductive PayloadLt : Value → Value → Prop where
  | blob {x y} : cmpList ltCmp x y = .lt → PayloadLt (.blob x) (.blob y)
  | boolean {x y} : ltCmp x y = .lt → PayloadLt (.boolean x) (.boolean y)
  | date {x y} : Date.cmp x y = .lt → PayloadLt (.date x) (.date y)
  | dateTime {x y} : DateTime.cmp x y = .lt → PayloadLt (.dateTime x) (.dateTime y)
  | decimal {x y} : ltCmp x y = .lt → PayloadLt (.decimal x) (.decimal y)
  | int32 {x y} : ltCmp x y = .lt → PayloadLt (.int32 x) (.int32 y)
  | int64 {x y} : ltCmp x y = .lt → PayloadLt (.int64 x) (.int64 y)
  | principal {x y} : cmpList ltCmp x y = .lt → PayloadLt (.principal x) (.principal y)
  | text {x y} : cmpList ltCmp x y = .lt → PayloadLt (.text x) (.text y)
  | uint32 {x y} : ltCmp x y = .lt → PayloadLt (.uint32 x) (.uint32 y)
  | uint64 {x y} : ltCmp x y = .lt → PayloadLt (.uint64 x) (.uint64 y)
  | uuid {x y} : cmpList ltCmp x y = .lt → PayloadLt (.uuid x) (.uuid y)


end Value

/-! ### Table schema data: columns and errors -/

/-- `DataTypeKind` from `src/ic-dbms-canister/src/dbms/types.rs` lines 63-76. -/
inductive DataTypeKind where
  | blob | boolean | date | dateTime | decimal | int32 | int64
  | principal | text | uint32 | uint64 | uuid
deriving DecidableEq

/-- `ForeignKeyDef` from `src/ic-dbms-canister/src/dbms/table/column_def.rs`. -/
structure ForeignKeyDef where
  localColumn : String
  foreignTable : String
  foreignColumn : String
deriving DecidableEq

/-- `ColumnDef` from `src/ic-dbms-canister/src/dbms/table/column_def.rs`. -/
structure ColumnDef where
  name : String
  dataType : DataTypeKind
  nullable : Bool
  primaryKey : Bool
  foreignKey : Option ForeignKeyDef
deriving DecidableEq

/-- A row as the engine passes it around: `Vec<(ColumnDef, Value)>`. -/
abbrev Row := List (ColumnDef × Value)

/-- `DecodeError` from `src/ic-dbms-canister/src/memory/error.rs` lines 51-64. -/
inductive DecodeError where
  | badRawRecordHeader
  | tryFromSliceError
  | utf8Error
  | tooShort
deriving DecidableEq

/-- `MemoryError` from `src/ic-dbms-canister/src/memory/error.rs` lines 9-35. -/
inductive MemoryError where
  | dataTooLarge (pageSize requested : Nat)
  | decodeError (e : DecodeError)
  | failedToAllocatePage
  | outOfBounds
  | segmentationFault (page offsetVal dataSize pageSize : Nat)
  | stableMemoryError
deriving DecidableEq

/-- `QueryError` from `src/ic-dbms-api/src/dbms/query.rs` lines 22-90. -/
inductive QueryError where
  | primaryKeyConflict
  | brokenForeignKeyReference (table : String) (key : Value)
  | foreignKeyConstraintViolation (referencingTable field : String)
  | unknownColumn (name : String)
  | missingNonNullableField (name : String)
  | typeMismatch (column expected found : String)
  | transactionNotFound
  | invalidQuery (msg : String)
  | constraintViolation (msg : String)
  | memoryError (e : MemoryError)
  | tableNotFound (name : String)
  | recordNotFound
  | serializationError (msg : String)
  | internal (msg : String)
deriving DecidableEq

/-- `TableError` from `src/ic-dbms-canister/src/dbms/table.rs` lines 17-22. -/
inductive TableError where
  | tableNotFound
  | schemaMismatch
deriving DecidableEq

/-- `TransactionError` from `src/ic-dbms-api/src/dbms/transaction.rs`. -/
inductive TransactionError where
  | noActiveTransaction
deriving DecidableEq

/-- `IcDbmsError` from `src/ic-dbms-api/src/error.rs` lines 5-14. -/
inductive IcDbmsError where
  | memory (e : MemoryError)
  | query (e : QueryError)
  | table (e : TableError)
  | transaction (e : TransactionError)
deriving DecidableEq

/-! ### Filters (`src/ic-dbms-canister/src/dbms/query/filter.rs`) -/

/-- Modelled from the spec: the SQL-style `LIKE` matcher of the external
`like` crate used by `Filter::matches` (spec 4.H: wildcards `%` and `_`,
`%%` is a literal `%`); the crate itself is not part of this repository.
Pattern and text are UTF-8 byte lists; byte 37 is `%`, byte 95 is `_`. -/
def likeMatches : List Nat → List Nat → Bool
  | [], [] => true
  | [], _ :: _ => false
  | 37 :: 37 :: ps, t =>
    match t with
    | 37 :: ts => likeMatches ps ts
    | _ => false
  | 37 :: ps, t =>
    likeMatches ps t ||
      match t with
      | _ :: ts => likeMatches (37 :: ps) ts
      | [] => false
  | 95 :: ps, t =>
    match t with
    | _ :: ts => likeMatches ps ts
    | [] => false
  | p :: ps, t =>
    match t with
    | c :: ts => p == c && likeMatches ps ts
    | [] => false
termination_by pat text => (pat.length, text.length)

/-- `Filter` from `src/ic-dbms-canister/src/dbms/query/filter.rs` lines 9-23
(variants in source order; `In` is `inList`, the LIKE pattern is kept as a
UTF-8 byte list). -/
inductive Filter where
  | eq (field : String) (value : Value)
  | ne (field : String) (value : Value)
  | gt (field : String) (value : Value)
  | lt (field : String) (value : Value)
  | ge (field : String) (value : Value)
  | inList (field : String) (values : List Value)
  | le (field : String) (value : Value)
  | like (field : String) (pattern : List Nat)
  | notNull (field : String)
  | isNull (field : String)
  | and (left right : Filter)
  | or (left right : Filter)
  | not (inner : Filter)
deriving DecidableEq

namespace Filter

/-- The `for` loop of the `Like` arm of `Filter::matches`: act on the first
column whose name equals `field`; non-`Text` value is an `InvalidQuery`
error, no matching column yields `false`. -/
def likeLoop (field : String) (pattern : List Nat) :
    Row → Except QueryError Bool
  | [] => .ok false
  | (col, val) :: rest =>
    if col.name = field then
      match val with
      | .text t => .ok (likeMatches pattern t)
      | _ => .error (.invalidQuery
          "LIKE operator can only be applied to Text values")
    else likeLoop field pattern rest

/-- `Filter::matches` from `filter.rs` lines 93-148.  Comparisons iterate the
row and hold iff **any** entry with the filter's column name satisfies them;
`==`/`!=` are the derived `PartialEq`, `>`/`<`/`>=`/`<=` the derived `Ord`. -/
def matchesRow : Filter → Row → Except QueryError Bool
  | .eq field value, values =>
    .ok (values.any fun cv => cv.1.name == field && cv.2 == value)
  | .ne field value, values =>
    .ok (values.any fun cv => cv.1.name == field && cv.2 != value)
  | .gt field value, values =>
    .ok (values.any fun cv => cv.1.name == field &&
      Value.cmp cv.2 value == .gt)
  | .lt field value, values =>
    .ok (values.any fun cv => cv.1.name == field &&
      Value.cmp cv.2 value == .lt)
  | .ge field value, values =>
    .ok (values.any fun cv => cv.1.name == field &&
      Value.cmp cv.2 value != .lt)
  | .le field value, values =>
    .ok (values.any fun cv => cv.1.name == field &&
      Value.cmp cv.2 value != .gt)
  | .inList field list, values =>
    .ok (values.any fun cv => cv.1.name == field &&
      list.any fun v => v == cv.2)
  | .like field pattern, values => likeLoop field pattern values
  | .notNull field, values =>
    .ok (values.any fun cv => cv.1.name == field && !cv.2.isNull)
  | .isNull field, values =>
    .ok (values.any fun cv => cv.1.name == field && cv.2.isNull)
  | .and left right, values => do
    let l ← matchesRow left values
    if l then matchesRow right values else .ok false
  | .or left right, values => do
    let l ← matchesRow left values
    if l then .ok true else matchesRow right values
  | .not inner, values => do
    let i ← matchesRow inner values
    .ok (!i)

end Filter

/-! ### Select pipeline (`src/ic-dbms-canister/src/dbms.rs`) -/

/-- `OrderDirection` from `src/ic-dbms-api/src/dbms/query.rs`. -/
inductive OrderDirection where
  | ascending
  | descending
deriving DecidableEq

/-- `ValuesSource` from `src/ic-dbms-api/src/dbms/table/record.rs`. -/
inductive ValuesSource where
  | this
  | foreign (table : String) (column : String)
deriving DecidableEq

/-- `TableColumns`: a list of `(ValuesSource, Vec<(ColumnDef, Value)>)`
groups, one result entry of a select. -/
abbrev TableColumns := List (ValuesSource × Row)

/-- The accessor inside `IcDbmsDatabase::sort_query_results`
(`src/ic-dbms-canister/src/dbms.rs` lines 265-281): the value of `column` in
the `ValuesSource::This` group of a result, if any. -/
def resultThisValue (res : TableColumns) (column : String) : Option Value :=
  (res.find? fun g => g.1 == ValuesSource.this).bind fun g =>
    (g.2.find? fun cv => cv.1.name == column).map fun cv => cv.2

/-- The comparator closure passed to `results.sort_by` in
`IcDbmsDatabase::sort_query_results` (`dbms.rs` lines 283-291). -/
def cmpResults (column : String) (direction : OrderDirection)
    (a b : TableColumns) : Ordering :=
  match resultThisValue a column, resultThisValue b column with
  | some av, some bv =>
    match direction with
    | .ascending => Value.cmp av bv
    | .descending => Value.cmp bv av
  | some _, none => .gt
  | none, some _ => .lt
  | none, none => .eq

/-- `IcDbmsDatabase::sort_query_results` (`dbms.rs` lines 259-293):
`slice::sort_by` is a stable sort, modelled by Mathlib's (stable) insertion
sort over the non-strict relation of the comparator. -/
def sortQueryResults (column : String) (direction : OrderDirection)
    (results : List TableColumns) : List TableColumns :=
  List.insertionSort (fun a b => cmpResults column direction a b ≠ .gt) results

/-- The query fields `select` consults: `filter`, `order_by`, `limit`,
`offset` of `Query<T>` (`src/ic-dbms-api/src/dbms/query.rs` lines 105-126).
Column projection and eager relations are handled by the `proj` parameter of
`selectRows` below. -/
structure QuerySpec where
  filter : Option Filter
  orderBy : List (String × OrderDirection)
  limit : Option Nat
  offset : Option Nat

/-- The `while let` loop of `IcDbmsDatabase::select` (`dbms.rs` lines
326-349) over the sequence of rows the (overlaid) reader yields: evaluate
the filter, count matches, skip while `count <= offset`, project, stop once
`limit` results are accumulated.  `count` is the running match count and
`resLen` the number of accumulated results. -/
def selectLoop (proj : Row → Except IcDbmsError TableColumns) (q : QuerySpec) :
    List Row → Nat → Nat → Except IcDbmsError (List TableColumns)
  | [], _, _ => .ok []
  | r :: rest, count, resLen =>
    let matched : Except IcDbmsError Bool :=
      match q.filter with
      | some f =>
        match f.matchesRow r with
        | .ok b => .ok b
        | .error e => .error (.query e)
      | none => .ok true
    match matched with
    | .error e => .error e
    | .ok false => selectLoop proj q rest count resLen
    | .ok true =>
      if q.offset.elim false (fun o => decide (count + 1 ≤ o)) then
        selectLoop proj q rest (count + 1) resLen
      else
        match proj r with
        | .error e => .error e
        | .ok cols =>
          if q.limit.elim false (fun l => decide (resLen + 1 ≥ l)) then .ok [cols]
          else
            match selectLoop proj q rest (count + 1) (resLen + 1) with
            | .error e => .error e
            | .ok tail => .ok (cols :: tail)

/-- `IcDbmsDatabase::select` (`dbms.rs` lines 306-357) over the row sequence
yielded by the overlaid reader: run the loop, then apply
`sort_query_results` for each `(column, direction)` of `order_by` in order.
The final `T::Record::from_values` repackaging is the identity on the
underlying column data and is omitted. -/
def selectRows (proj : Row → Except IcDbmsError TableColumns) (q : QuerySpec)
    (rows : List Row) : Except IcDbmsError (List TableColumns) :=
  match selectLoop proj q rows 0 0 with
  | .error e => .error e
  | .ok results =>
    .ok (q.orderBy.foldl
      (fun acc cd => sortQueryResults cd.1 cd.2 acc) results)

/-- The projection used by a `Query::builder().all()` query with no eager
relations: `select_queried_fields` (`dbms.rs` lines 158-215) then appends the
full base row as the single `(ValuesSource::This, row)` group. -/
def projAll (row : Row) : Except IcDbmsError TableColumns :=
  .ok [(ValuesSource.this, row)]

/-- The projection of a `Select::Columns(cols)` query with no eager
relations: `select_queried_fields` retains the requested column names of the
base row (`record_values.retain(...)`, `dbms.rs` line 212). -/
def projColumns (cols : List String) (row : Row) :
    Except IcDbmsError TableColumns :=
  .ok [(ValuesSource.this, row.filter fun cv => cols.contains cv.1.name)]

/-! ### Transaction overlay
(`src/ic-dbms-canister/src/dbms/transaction/overlay/table.rs` and
`overlay/reader.rs`) -/

/-- `Operation` from `overlay/table.rs` lines 15-19. -/
inductive Operation where
  | insert (pk : Value) (record : Row)
  | update (pk : Value) (updates : List (String × Value))
  | delete (pk : Value)
deriving DecidableEq

/-- `Operation::primary_key_value` from `overlay/table.rs`. -/
def Operation.primaryKeyValue : Operation → Value
  | .insert pk _ => pk
  | .update pk _ => pk
  | .delete pk => pk

/-- `TableOverlay` from `overlay/table.rs`: the append-only operation
stack of one table within a transaction. -/
structure TableOverlay where
  operations : List Operation
deriving DecidableEq

/-- Replace the value of the **first** row entry named `colName` (the
`iter_mut().find(...)` of `TableOverlay::apply_operation`). -/
def setColumn : Row → String → Value → Row
  | [], _, _ => []
  | (cd, v) :: rest, colName, nv =>
    if cd.name = colName then (cd, nv) :: rest
    else (cd, v) :: setColumn rest colName nv

namespace TableOverlay

/-- `TableOverlay::apply_operation` from `overlay/table.rs` lines 82-103:
`Insert` replaces the accumulator, `Delete` clears it, `Update` patches a
surviving row field by field. -/
def applyOperation (row : Option Row) (op : Operation) : Option Row :=
  match row, op with
  | _, .insert _ record => some record
  | _, .delete _ => none
  | none, .update _ _ => none
  | some existingRow, .update _ updates =>
    some (updates.foldl (fun acc cu => setColumn acc cu.1 cu.2) existingRow)

/-- The primary-key extraction of `TableOverlay::patch_row`: the value of
the first column flagged `primary_key`. -/
def rowPk (row : Row) : Option Value :=
  (row.find? fun cv => cv.1.primaryKey).map fun cv => cv.2

/-- `TableOverlay::patch_row` from `overlay/table.rs` lines 66-80: fold every
operation whose pk matches the row's pk over the row, in stack order;
`none` when the row lacks a pk column or ends up deleted. -/
def patchRow (ov : TableOverlay) (row : Row) : Option Row :=
  match rowPk row with
  | none => none
  | some pk =>
    (ov.operations.filter fun op => op.primaryKeyValue == pk).foldl
      applyOperation (some row)

/-- `TableOverlay::iter_inserted` from `overlay/table.rs` lines 49-57: each
`Insert` op's record patched by the whole stack, surviving rows only. -/
def iterInserted (ov : TableOverlay) : List Row :=
  ov.operations.filterMap fun op =>
    match op with
    | .insert _ record => ov.patchRow record
    | _ => none

/-- The full row sequence produced by `DatabaseOverlayReader::try_next`
(`overlay/reader.rs` lines 41-69) pulled to exhaustion over a base reader
yielding `base`: base rows patched (deleted ones skipped), then the
overlay-inserted rows, each patched once more by the loop. -/
def readAll (ov : TableOverlay) : List Row → List Row
  | [] => ov.iterInserted.filterMap ov.patchRow
  | r :: rest =>
    match ov.patchRow r with
    | some p => p :: readAll ov rest
    | none => readAll ov rest

end TableOverlay

/-! ### Commit protocol (`src/ic-dbms-canister/src/dbms.rs` lines 535-574) -/

/-- `DeleteBehavior` from `src/ic-dbms-api/src/dbms/query/delete.rs`
(`Break` is `breakFk` since `break` is reserved). -/
inductive DeleteBehavior where
  | restrict
  | cascade
  | breakFk
deriving DecidableEq

/-- `TransactionOp` from `src/ic-dbms-canister/src/dbms/transaction.rs`
lines 98-115. -/
inductive TransactionOp where
  | insert (table : String) (values : Row)
  | delete (table : String) (behaviour : DeleteBehavior)
      (filter : Option Filter)
  | update (table : String) (patch : Row) (filter : Option Filter)

/-- The `DatabaseSchema` trait (`src/ic-dbms-canister/src/dbms/schema.rs`)
together with the durable state its table-name-dispatched operations act on:
`validate_insert` is read-only, the mutators return the updated state (the
mutation count of delete/update is irrelevant to commit and omitted). -/
structure DatabaseSchemaModel (State : Type) where
  validateInsert : State → String → Row → Except IcDbmsError Unit
  insert : State → String → Row → Except IcDbmsError State
  delete : State → String → DeleteBehavior → Option Filter →
    Except IcDbmsError State
  update : State → String → Row → Option Filter → Except IcDbmsError State

/-- Outcome of `IcDbmsDatabase::commit`: a normal return (`Ok(())`), an error
returned to the caller by `?`, or a process abort raised by
`atomic` (`trap(err.to_string())`, `dbms.rs` lines 99-107).  `reported` and
`trapped` carry the durable state at that point; a trap relies on the host
rolling back to the pre-message snapshot. -/
inductive CommitOutcome (State : Type) where
  | ok (s : State)
  | reported (e : IcDbmsError) (s : State)
  | trapped (e : IcDbmsError) (s : State)

/-- The replay loop of `IcDbmsDatabase::commit` (`dbms.rs` lines 548-571),
after the transaction has been taken out of the session: for an `Insert` op,
`validate_insert` runs first and its error propagates with `?`; the
application of every op is wrapped in `atomic`, whose error traps. -/
def commitOps {State : Type} (sch : DatabaseSchemaModel State) :
    State → List TransactionOp → CommitOutcome State
  | s, [] => .ok s
  | s, .insert table values :: rest =>
    match sch.validateInsert s table values with
    | .error e => .reported e s
    | .ok _ =>
      match sch.insert s table values with
      | .error e => .trapped e s
      | .ok s' => commitOps sch s' rest
  | s, .delete table behaviour filter :: rest =>
    match sch.delete s table behaviour filter with
    | .error e => .trapped e s
    | .ok s' => commitOps sch s' rest
  | s, .update table patch filter :: rest =>
    match sch.update s table patch filter with
    | .error e => .trapped e s
    | .ok s' => commitOps sch s' rest

/-! ### Integrity validation and the users/posts fixture schema

`InsertIntegrityValidator` from
`src/ic-dbms-canister/src/dbms/integrity/insert.rs`, instantiated at the
`users`/`posts` test schema of `src/ic-dbms-canister/src/tests/user.rs` and
`tests/post.rs` (the spec's two scenario tables). -/

/-- `users.id` column (`tests/user.rs`). -/
def usersIdCol : ColumnDef :=
  { name := "id", dataType := .uint32, nullable := false,
    primaryKey := true, foreignKey := none }

/-- `users.name` column (`tests/user.rs`). -/
def usersNameCol : ColumnDef :=
  { name := "name", dataType := .text, nullable := false,
    primaryKey := false, foreignKey := none }

/-- `User::columns()` (`tests/user.rs`). -/
def usersColumns : List ColumnDef := [usersIdCol, usersNameCol]

/-- The foreign key of `posts.user_id` (`tests/post.rs`). -/
def postsUserFk : ForeignKeyDef :=
  { localColumn := "user_id", foreignTable := "users", foreignColumn := "id" }

/-- `posts.id` column (`tests/post.rs`). -/
def postsIdCol : ColumnDef :=
  { name := "id", dataType := .uint32, nullable := false,
    primaryKey := true, foreignKey := none }

/-- `posts.title` column (`tests/post.rs`). -/
def postsTitleCol : ColumnDef :=
  { name := "title", dataType := .text, nullable := false,
    primaryKey := false, foreignKey := none }

/-- `posts.content` column (`tests/post.rs`). -/
def postsContentCol : ColumnDef :=
  { name := "content", dataType := .text, nullable := false,
    primaryKey := false, foreignKey := none }

/-- `posts.user_id` column, carrying the foreign key (`tests/post.rs`). -/
def postsUserIdCol : ColumnDef :=
  { name := "user_id", dataType := .uint32, nullable := false,
    primaryKey := false, foreignKey := some postsUserFk }

/-- `Post::columns()` (`tests/post.rs` lines 103-136). -/
def postsColumns : List ColumnDef :=
  [postsIdCol, postsTitleCol, postsContentCol, postsUserIdCol]

/-- The `(ColumnDef, Value)` list of a `posts` insert record
(`PostInsertRequest::into_values`, field order of `tests/post.rs`). -/
def postRowV (id title content userId : Value) : Row :=
  [(postsIdCol, id), (postsTitleCol, title), (postsContentCol, content),
    (postsUserIdCol, userId)]

/-- A `users` row from id and name bytes. -/
def userRow (id : Nat) (name : List Nat) : Row :=
  [(usersIdCol, .uint32 id), (usersNameCol, .text name)]

/-- The durable state of the two-table fixture database: the row lists the
table readers of `users` and `posts` yield. -/
structure TestDB where
  users : List Row
  posts : List Row

/-- `PostForeignFetcher::fetch` (`tests/post.rs` lines 56-95), the repo's
hand-written `ForeignFetcher` for `posts`: reject foreign tables other than
`users`, select at most one user whose primary key equals the foreign-key
value, and fail with `BrokenForeignKeyReference{table, key}` when none
exists. -/
def postFetch (db : TestDB) (table : String) (localColumn : String)
    (pkValue : Value) : Except IcDbmsError TableColumns :=
  if table ≠ "users" then
    .error (.query (.invalidQuery
      "ForeignFetcher: unknown table for posts foreign fetcher"))
  else
    match selectRows projAll
        { filter := some (.eq "id" pkValue), orderBy := [],
          limit := some 1, offset := none } db.users with
    | .error e => .error e
    | .ok users =>
      match users.getLast? with
      | none => .error (.query (.brokenForeignKeyReference "users" pkValue))
      | some user => .ok [(ValuesSource.foreign "users" localColumn, user.flatMap fun g => g.2)]

/-- `InsertIntegrityValidator::check_primary_key_conflict` (`insert.rs`
lines 48-70) for a table with primary key `pkName` whose reader yields
`tableRows`: missing pk value is `MissingNonNullableField`, a non-empty
pk-filtered select is `PrimaryKeyConflict`. -/
def checkPrimaryKeyConflict (pkName : String) (tableRows : List Row)
    (recordValues : Row) : Except IcDbmsError Unit :=
  match (recordValues.find? fun cv => cv.1.name == pkName).map
      (fun cv => cv.2) with
  | none => .error (.query (.missingNonNullableField pkName))
  | some pk =>
    match selectRows (projColumns [pkName])
        { filter := some (.eq pkName pk), orderBy := [],
          limit := none, offset := none } tableRows with
    | .error e => .error e
    | .ok res => if res.isEmpty then .ok () else
        .error (.query .primaryKeyConflict)

/-- `InsertIntegrityValidator::check_foreign_key_existence` (`insert.rs`
lines 81-102) with the fetch function injected: a fetch error propagates
with `?`; an empty fetch result is reported as
`ForeignKeyConstraintViolation{referencing_table: fk.foreign_table,
field: fk.local_column}`. -/
def checkForeignKeyExistence
    (fetch : String → String → Value → Except IcDbmsError TableColumns)
    (fk : ForeignKeyDef) (value : Value) : Except IcDbmsError Unit :=
  match fetch fk.foreignTable fk.localColumn value with
  | .error e => .error e
  | .ok res =>
    if res.isEmpty then
      .error (.query (.foreignKeyConstraintViolation fk.foreignTable
        fk.localColumn))
    else .ok ()

/-- `InsertIntegrityValidator::check_foreign_keys` (`insert.rs` lines
73-78): every column of the record carrying a `foreign_key`, in row order. -/
def checkForeignKeys
    (fetch : String → String → Value → Except IcDbmsError TableColumns) :
    Row → Except IcDbmsError Unit
  | [] => .ok ()
  | (cd, v) :: rest =>
    match cd.foreignKey with
    | none => checkForeignKeys fetch rest
    | some fk =>
      match checkForeignKeyExistence fetch fk v with
      | .error e => .error e
      | .ok _ => checkForeignKeys fetch rest

/-- `InsertIntegrityValidator::check_non_nullable_fields` (`insert.rs` lines
105-118): every non-nullable schema column must appear in the record. -/
def checkNonNullableFields (columns : List ColumnDef) (recordValues : Row) :
    Except IcDbmsError Unit :=
  match columns.filter (fun c => !c.nullable) |>.find?
      (fun c => !recordValues.any fun cv => cv.1.name == c.name) with
  | some c => .error (.query (.missingNonNullableField c.name))
  | none => .ok ()

/-- `InsertIntegrityValidator::validate` (`insert.rs` lines 39-45):
primary-key conflict, then foreign keys, then non-nullable fields. -/
def validateInsertRecord (pkName : String) (columns : List ColumnDef)
    (tableRows : List Row)
    (fetch : String → String → Value → Except IcDbmsError TableColumns)
    (recordValues : Row) : Except IcDbmsError Unit :=
  match checkPrimaryKeyConflict pkName tableRows recordValues with
  | .error e => .error e
  | .ok _ =>
    match checkForeignKeys fetch recordValues with
    | .error e => .error e
    | .ok _ => checkNonNullableFields columns recordValues

/-- `validate_insert` dispatched at the `posts` table of the fixture schema:
the pk-conflict select runs over the `posts` reader, foreign keys resolve
through `PostForeignFetcher`. -/
def postsValidateInsert (db : TestDB) (recordValues : Row) :
    Except IcDbmsError Unit :=
  validateInsertRecord "id" postsColumns db.posts (postFetch db) recordValues

/-- `validate_insert` dispatched at the `users` table of the fixture schema
(no foreign keys: `User::ForeignFetcher = NoForeignFetcher`, never
invoked because no column carries a `foreign_key`). -/
def usersValidateInsert (db : TestDB) (recordValues : Row) :
    Except IcDbmsError Unit :=
  validateInsertRecord "id" usersColumns db.users
    (fun _ _ _ => .error (.query (.internal "NoForeignFetcher")))
    recordValues

/-- Rows of `db.users` matching an optional filter (matcher errors mapped to
`false`, which the fixture filters never produce). -/
def usersMatching (filter : Option Filter) (db : TestDB) : List Row :=
  db.users.filter fun r =>
    match filter with
    | none => true
    | some f =>
      match f.matchesRow r with
      | .ok b => b
      | .error _ => false

/-- The `users`-only instantiation of `DatabaseSchema`
(`TestDatabaseSchema` of `tests.rs` restricted to its `users` arm, with
`referenced_tables("users") = []`): `insert` is `IcDbmsDatabase::insert`
(validate again, then append to the table), `delete` removes the
filter-matching rows, `update` patches them in place; unknown tables are
`TableNotFound`. -/
def usersSchema : DatabaseSchemaModel TestDB where
  validateInsert db table row :=
    if table = "users" then usersValidateInsert db row
    else .error (.query (.tableNotFound table))
  insert db table row :=
    if table = "users" then
      match usersValidateInsert db row with
      | .error e => .error e
      | .ok _ => .ok { db with users := db.users ++ [row] }
    else .error (.query (.tableNotFound table))
  delete db table _ filter :=
    if table = "users" then
      .ok { db with users :=
        db.users.filter fun r => !(usersMatching filter db).contains r }
    else .error (.query (.tableNotFound table))
  update db table patch filter :=
    if table = "users" then
      .ok { db with users := db.users.map fun r =>
        if (usersMatching filter db).contains r then
          patch.foldl (fun acc cv => setColumn acc cv.1.name cv.2) r
        else r }
    else .error (.query (.tableNotFound table))

/-! ### Encode codecs (claim C8)

`impl Encode for Text` from `src/ic-dbms-api/src/dbms/types/text.rs` and
`impl Encode for Date` from `src/ic-dbms-canister/src/dbms/types/date.rs`.
Byte strings are `List Nat`; `MSize` is `u16`, so sizes are computed
modulo `2^16`; a `String` is its UTF-8 byte list (`String::from_utf8` of
bytes produced by `encode` is the identity on those bytes). -/

/-- `u16::to_le_bytes` of `n as u16`. -/
def toLeU16 (n : Nat) : List Nat := [n % 256, n / 256 % 256]

/-- `Text::size`: `2 + self.0.len() as MSize` in `u16` arithmetic. -/
def textSize (s : List Nat) : Nat := (2 + s.length % 65536) % 65536

/-- `Text::encode`: the length truncated to `u16`, little-endian, then the
UTF-8 bytes. -/
def textEncode (s : List Nat) : List Nat := toLeU16 s.length ++ s

/-- `Text::decode` (`text.rs` lines 39-66). -/
def textDecode (data : List Nat) : Except MemoryError (List Nat) :=
  match data with
  | b0 :: b1 :: rest =>
    let strLen := b0 + 256 * b1
    if data.length < 2 + strLen then .error (.decodeError .tooShort)
    else .ok (rest.take strLen)
  | _ => .error (.decodeError .tooShort)

/-- `Date::size`: `SIZE = Fixed(4)`. -/
def dateSize : Nat := 4

/-- `Date::encode` (`date.rs` lines 35-42): `year` as `u16` little-endian,
then `month` and `day` bytes. -/
def dateEncode (d : Date) : List Nat :=
  toLeU16 d.year ++ [d.month, d.day]

/-- `Date::decode` (`date.rs` lines 44-58). -/
def dateDecode (data : List Nat) : Except MemoryError Date :=
  match data with
  | b0 :: b1 :: m :: dd :: _ => .ok ⟨b0 + 256 * b1, m, dd⟩
  | _ => .error (.decodeError .tooShort)

/-! ### Memory ledgers (claims C5 and C6) -/

/-- Result of a Rust function that may `panic!`/`todo!`. -/
inductive PanicOr (α : Type _) where
  | panics (msg : String)
  | ok (a : α)

/-- `FreeSegment` from
`src/ic-dbms-canister/src/memory/table_registry/free_segments_ledger/free_segment.rs`:
`page: u32`, `offset: u16`, `size: u16`. -/
structure FreeSegment where
  page : Nat
  offsetVal : Nat
  size : Nat
deriving DecidableEq

/-- `FreeSegmentsTable` from `free_segment.rs`. -/
structure FreeSegmentsTable where
  records : List FreeSegment
deriving DecidableEq

/-- `FreeSegmentsTable::insert_free_segment` (`free_segment.rs` lines
22-26): the source pushes the new `FreeSegment` and then unconditionally
executes `todo!("Merge adjacent free segments for optimization")`, so the
call never returns — it panics, discarding the pushed record. -/
def FreeSegmentsTable.insertFreeSegment (_t : FreeSegmentsTable)
    (_page _offsetVal _size : Nat) : PanicOr FreeSegmentsTable :=
  .panics "not yet implemented: Merge adjacent free segments for optimization"

/-- `PageRecord` from
`src/ic-dbms-canister/src/memory/table_registry/page_ledger/page_table.rs`:
`{page: u32, free: u64}`. -/
structure PageRecord where
  page : Nat
  free : Nat
deriving DecidableEq

/-- `PageLedger::get_page_for_record`
(`src/ic-dbms-canister/src/memory/table_registry/page_ledger.rs` lines
29-63) as a pure function of the in-memory page table: `DataTooLarge` when
the record exceeds one page; otherwise the first `PageRecord` satisfying the
source's test `page_record.free + required_size <= page_size`; otherwise a
freshly allocated page (`MemoryManager::allocate_page` modelled by the
`newPage` argument) appended with `free = page_size`.  Returns the chosen
page and the updated page table. -/
def getPageForRecord (pages : List PageRecord) (pageSize requiredSize
    newPage : Nat) : Except MemoryError (Nat × List PageRecord) :=
  if requiredSize > pageSize then
    .error (.dataTooLarge pageSize requiredSize)
  else
    match pages.find? (fun pr => decide (pr.free + requiredSize ≤ pageSize))
        with
    | some pr => .ok (pr.page, pages)
    | none => .ok (newPage, pages ++ [{ page := newPage, free := pageSize }])

/-- `PAGE_SIZE` of the providers
(`src/ic-dbms-canister/src/memory/provider.rs`):
`WASM_PAGE_SIZE_IN_BYTES = 64 KiB`. -/
def PAGE_SIZE : Nat := 65536

/-- The comparator of `sort_query_results` factored through its sort key
(the optional column value of a result): `(Some, Some)` compares by the
`Value` order (reversed for `Descending`), a present value is `Greater` than
an absent one in both directions. -/
def optValueCmp (direction : OrderDirection) :
    Option Value → Option Value → Ordering
  | some av, some bv =>
    match direction with
    | .ascending => Value.cmp av bv
    | .descending => Value.cmp bv av
  | some _, none => .gt
  | none, some _ => .lt
  | none, none => .eq

/-- Whether a row passes the select loop's filter test (`true` when the
query has no filter); matcher errors abort the select and are mapped to
`false` here, theorems about it assume error-freedom. -/
def matchesB (f : Option Filter) (r : Row) : Bool :=
  match f with
  | none => true
  | some f' =>
    match f'.matchesRow r with
    | .ok b => b
    | .error _ => false

/-- A clean replay of a transaction op list: every `Insert` validates and
applies successfully, every `Delete`/`Update` applies successfully, ending
in the given state.  This is the error-free path of `commitOps`. -/
inductive ReplayOk {State : Type} (sch : DatabaseSchemaModel State) :
    State → List TransactionOp → State → Prop where
  | nil {s} : ReplayOk sch s [] s
  | insert {s s₁ s₂ t v ops} :
      sch.validateInsert s t v = .ok () → sch.insert s t v = .ok s₁ →
      ReplayOk sch s₁ ops s₂ → ReplayOk sch s (.insert t v :: ops) s₂
  | delete {s s₁ s₂ t b f ops} :
      sch.delete s t b f = .ok s₁ → ReplayOk sch s₁ ops s₂ →
      ReplayOk sch s (.delete t b f :: ops) s₂
  | update {s s₁ s₂ t p f ops} :
      sch.update s t p f = .ok s₁ → ReplayOk sch s₁ ops s₂ →
      ReplayOk sch s (.update t p f :: ops) s₂

/-! ### Theorems -/

theorem ordThen_swap (o p : Ordering) : (o.then p).swap = o.swap.then p.swap := by
  cases o <;> rfl

theorem ordThen_eq_lt {o p : Ordering} :
    o.then p = .lt ↔ o = .lt ∨ (o = .eq ∧ p = .lt) := by
  cases o <;> simp [Ordering.then]

theorem ordThen_eq_eq {o p : Ordering} :
    o.then p = .eq ↔ o = .eq ∧ p = .eq := by
  cases o <;> simp [Ordering.then]

theorem ordThen_eq_gt {o p : Ordering} :
    o.then p = .gt ↔ o = .gt ∨ (o = .eq ∧ p = .gt) := by
  cases o <;> simp [Ordering.then]

section LtCmp

variable {α : Type _} [LinearOrder α]

theorem ltCmp_eq_lt {a b : α} : ltCmp a b = .lt ↔ a < b := by
  unfold ltCmp
  rcases lt_trichotomy a b with h | h | h
  · simp [h]
  · simp [h, lt_irrefl]
  · simp [h, lt_asymm h]

theorem ltCmp_eq_gt {a b : α} : ltCmp a b = .gt ↔ b < a := by
  unfold ltCmp
  rcases lt_trichotomy a b with h | h | h
  · simp [h, lt_asymm h]
  · simp [h, lt_irrefl]
  · simp [h, lt_asymm h]

theorem ltCmp_eq_eq {a b : α} : ltCmp a b = .eq ↔ a = b := by
  unfold ltCmp
  rcases lt_trichotomy a b with h | h | h
  · simp [h, ne_of_lt h]
  · simp [h, lt_irrefl]
  · simp [h, lt_asymm h, ne_of_gt h]

theorem isCmp_ltCmp : IsCmp (ltCmp (α := α)) := by
  refine ⟨?_, fun a b => ltCmp_eq_eq, ?_⟩
  · intro a b
    rcases lt_trichotomy a b with h | h | h
    · rw [ltCmp_eq_lt.mpr h, show ltCmp b a = .gt from ltCmp_eq_gt.mpr h]; rfl
    · rw [ltCmp_eq_eq.mpr h, show ltCmp b a = .eq from ltCmp_eq_eq.mpr h.symm]; rfl
    · rw [ltCmp_eq_gt.mpr h, show ltCmp b a = .lt from ltCmp_eq_lt.mpr h]; rfl
  · intro a b d h1 h2
    exact ltCmp_eq_lt.mpr (lt_trans (ltCmp_eq_lt.mp h1) (ltCmp_eq_lt.mp h2))

end LtCmp
section CmpList

variable {α : Type _} {c : α → α → Ordering}

theorem isCmp_cmpList (hc : IsCmp c) : IsCmp (cmpList c) := by
  refine ⟨?_, ?_, ?_⟩
  · intro a b
    induction a generalizing b with
    | nil => cases b <;> rfl
    | cons x xs ih =>
      cases b with
      | nil => rfl
      | cons y ys =>
        show (c y x).then (cmpList c ys xs) = ((c x y).then (cmpList c xs ys)).swap
        rw [ordThen_swap, hc.swap_eq x y, ih ys]
  · intro a b
    induction a generalizing b with
    | nil => cases b <;> simp [cmpList]
    | cons x xs ih =>
      cases b with
      | nil => simp [cmpList]
      | cons y ys =>
        show (c x y).then (cmpList c xs ys) = .eq ↔ _
        rw [ordThen_eq_eq, hc.eq_iff, ih ys]
        constructor
        · rintro ⟨rfl, rfl⟩; rfl
        · intro h; cases h; exact ⟨rfl, rfl⟩
  · intro a b d h1 h2
    induction a generalizing b d with
    | nil =>
      cases b with
      | nil => exact h2
      | cons y ys =>
        cases d with
        | nil => exact absurd h2 (by simp [cmpList])
        | cons z zs => rfl
    | cons x xs ih =>
      cases b with
      | nil => exact absurd h1 (by simp [cmpList])
      | cons y ys =>
        cases d with
        | nil => exact absurd h2 (by simp [cmpList])
        | cons z zs =>
          show (c x z).then (cmpList c xs zs) = .lt
          rw [ordThen_eq_lt]
          have h1' := ordThen_eq_lt.mp h1
          have h2' := ordThen_eq_lt.mp h2
          rcases h1' with hxy | ⟨hxy, hxys⟩
          · rcases h2' with hyz | ⟨hyz, hyzs⟩
            · exact .inl (hc.lt_trans hxy hyz)
            · cases hc.eq_iff y z |>.mp hyz; exact .inl hxy
          · cases hc.eq_iff x y |>.mp hxy
            rcases h2' with hyz | ⟨hyz, hyzs⟩
            · exact .inl hyz
            · cases hc.eq_iff x z |>.mp hyz
              exact .inr ⟨hc.eq_iff x x |>.mpr rfl, ih hxys hyzs⟩

end CmpList
section ProdCmp

variable {α β : Type _} {c : α → α → Ordering} {d : β → β → Ordering}

theorem isCmp_prodCmp (hc : IsCmp c) (hd : IsCmp d) : IsCmp (prodCmp c d) := by
  refine ⟨?_, ?_, ?_⟩
  · intro a b
    show (c b.1 a.1).then (d b.2 a.2) = ((c a.1 b.1).then (d a.2 b.2)).swap
    rw [ordThen_swap, hc.swap_eq, hd.swap_eq]
  · intro a b
    show (c a.1 b.1).then (d a.2 b.2) = .eq ↔ a = b
    rw [ordThen_eq_eq, hc.eq_iff, hd.eq_iff, Prod.ext_iff]
  · intro a b e h1 h2
    show (c a.1 e.1).then (d a.2 e.2) = .lt
    rw [ordThen_eq_lt]
    have h1' := ordThen_eq_lt.mp h1
    have h2' := ordThen_eq_lt.mp h2
    rcases h1' with h | ⟨h, hs⟩
    · rcases h2' with h' | ⟨h', _⟩
      · exact .inl (hc.lt_trans h h')
      · rw [hc.eq_iff] at h'; rw [← h']; exact .inl h
    · rw [hc.eq_iff] at h; rw [h]
      rcases h2' with h' | ⟨h', hs'⟩
      · exact .inl h'
      · rw [hc.eq_iff] at h'; rw [h']
        exact .inr ⟨hc.eq_iff _ _ |>.mpr rfl, hd.lt_trans hs hs'⟩

/-- Pulling a lawful comparator back along an injective key preserves
lawfulness. -/
theorem IsCmp.comap {γ : Type _} (f : γ → α) (hf : Function.Injective f)
    (hc : IsCmp c) : IsCmp (fun x y => c (f x) (f y)) := by
  refine ⟨fun a b => hc.swap_eq _ _, ?_, fun h1 h2 => hc.lt_trans h1 h2⟩
  intro a b
  rw [hc.eq_iff]
  exact ⟨fun h => hf h, fun h => by rw [h]⟩

end ProdCmp
theorem isCmp_dateCmp : IsCmp Date.cmp := by
  have h := isCmp_prodCmp (isCmp_ltCmp (α := Nat))
    (isCmp_prodCmp (isCmp_ltCmp (α := Nat)) (isCmp_ltCmp (α := Nat)))
  refine h.comap Date.key ?_
  intro a b hab
  cases a; cases b
  simp only [Date.key, Prod.mk.injEq] at hab
  simp [hab.1, hab.2.1, hab.2.2]

theorem isCmp_dateTimeCmp : IsCmp DateTime.cmp := by
  have h := isCmp_prodCmp (isCmp_ltCmp (α := Nat)) (isCmp_prodCmp
    (isCmp_ltCmp (α := Nat)) (isCmp_prodCmp (isCmp_ltCmp (α := Nat))
    (isCmp_prodCmp (isCmp_ltCmp (α := Nat)) (isCmp_prodCmp
    (isCmp_ltCmp (α := Nat)) (isCmp_prodCmp (isCmp_ltCmp (α := Nat))
    (isCmp_prodCmp (isCmp_ltCmp (α := Nat)) (isCmp_ltCmp (α := Int))))))))
  refine h.comap DateTime.key ?_
  intro a b hab
  cases a; cases b
  simp only [DateTime.key, Prod.mk.injEq] at hab
  obtain ⟨h1, h2, h3, h4, h5, h6, h7, h8⟩ := hab
  simp [h1, h2, h3, h4, h5, h6, h7, h8]

namespace Value

theorem payloadLt_imp {a b : Value} (h : PayloadLt a b) : payloadCmp a b = .lt := by
  cases h <;> simpa [payloadCmp]

theorem payloadCmp_lt_imp : ∀ {a b : Value}, payloadCmp a b = .lt → PayloadLt a b := by
  intro a b h
  cases a <;> cases b <;>
    first
      | exact Ordering.noConfusion h
      | exact .blob h
      | exact .boolean h
      | exact .date h
      | exact .dateTime h
      | exact .decimal h
      | exact .int32 h
      | exact .int64 h
      | exact .principal h
      | exact .text h
      | exact .uint32 h
      | exact .uint64 h
      | exact .uuid h

theorem payloadLt_varIdx {a b : Value} (h : PayloadLt a b) : a.varIdx = b.varIdx := by
  cases h <;> rfl

theorem payloadLt_trans {a b d : Value} (h1 : PayloadLt a b) (h2 : PayloadLt b d) :
    PayloadLt a d := by
  have hList := isCmp_cmpList (isCmp_ltCmp (α := Nat))
  cases h1 <;> cases h2 <;>
    first
      | exact .blob (hList.lt_trans ‹_› ‹_›)
      | exact .boolean ((isCmp_ltCmp (α := Bool)).lt_trans ‹_› ‹_›)
      | exact .date (isCmp_dateCmp.lt_trans ‹_› ‹_›)
      | exact .dateTime (isCmp_dateTimeCmp.lt_trans ‹_› ‹_›)
      | exact .decimal ((isCmp_ltCmp (α := Rat)).lt_trans ‹_› ‹_›)
      | exact .int32 ((isCmp_ltCmp (α := Int)).lt_trans ‹_› ‹_›)
      | exact .int64 ((isCmp_ltCmp (α := Int)).lt_trans ‹_› ‹_›)
      | exact .principal (hList.lt_trans ‹_› ‹_›)
      | exact .text (hList.lt_trans ‹_› ‹_›)
      | exact .uint32 ((isCmp_ltCmp (α := Nat)).lt_trans ‹_› ‹_›)
      | exact .uint64 ((isCmp_ltCmp (α := Nat)).lt_trans ‹_› ‹_›)
      | exact .uuid (hList.lt_trans ‹_› ‹_›)

theorem payloadCmp_swap : ∀ a b : Value, payloadCmp b a = (payloadCmp a b).swap := by
  have hList := isCmp_cmpList (isCmp_ltCmp (α := Nat))
  intro a b
  cases a <;> cases b <;>
    first
      | rfl
      | exact hList.swap_eq _ _
      | exact (isCmp_ltCmp (α := Bool)).swap_eq _ _
      | exact isCmp_dateCmp.swap_eq _ _
      | exact isCmp_dateTimeCmp.swap_eq _ _
      | exact (isCmp_ltCmp (α := Rat)).swap_eq _ _
      | exact (isCmp_ltCmp (α := Int)).swap_eq _ _
      | exact (isCmp_ltCmp (α := Nat)).swap_eq _ _

theorem payloadCmp_eq_iff_of_same :
    ∀ a b : Value, a.varIdx = b.varIdx → (payloadCmp a b = .eq ↔ a = b) := by
  have hList := isCmp_cmpList (isCmp_ltCmp (α := Nat))
  intro a b hv
  cases a <;> cases b <;>
    first
      | (exact absurd hv (Nat.ne_of_beq_eq_false rfl))
      | simp [payloadCmp, hList.eq_iff, (isCmp_ltCmp (α := Bool)).eq_iff,
          isCmp_dateCmp.eq_iff, isCmp_dateTimeCmp.eq_iff,
          (isCmp_ltCmp (α := Rat)).eq_iff, (isCmp_ltCmp (α := Int)).eq_iff,
          (isCmp_ltCmp (α := Nat)).eq_iff]

theorem cmp_lt_iff {a b : Value} :
    cmp a b = .lt ↔ a.varIdx < b.varIdx ∨ (a.varIdx = b.varIdx ∧ PayloadLt a b) := by
  unfold cmp
  rw [ordThen_eq_lt, ltCmp_eq_lt, ltCmp_eq_eq]
  constructor
  · rintro (h | ⟨h, hp⟩)
    · exact .inl h
    · exact .inr ⟨h, payloadCmp_lt_imp hp⟩
  · rintro (h | ⟨h, hp⟩)
    · exact .inl h
    · exact .inr ⟨h, payloadLt_imp hp⟩

theorem ordThen_of_ne {o p : Ordering} (h : o ≠ .eq) : o.then p = o := by
  cases o <;> simp_all [Ordering.then]

theorem cmp_cross {v w : Value} (h : v.varIdx ≠ w.varIdx) :
    Value.cmp v w = ltCmp v.varIdx w.varIdx := by
  unfold cmp
  exact ordThen_of_ne fun he => h (ltCmp_eq_eq.mp he)

theorem ne_of_varIdx_ne {v w : Value} (h : v.varIdx ≠ w.varIdx) : v ≠ w :=
  fun he => h (he ▸ rfl)

theorem isCmp_valueCmp : IsCmp Value.cmp := by
  refine ⟨?_, ?_, ?_⟩
  · intro a b
    unfold cmp
    rw [ordThen_swap, (isCmp_ltCmp (α := Nat)).swap_eq, payloadCmp_swap]
  · intro a b
    unfold cmp
    rw [ordThen_eq_eq, ltCmp_eq_eq]
    constructor
    · rintro ⟨hv, hp⟩
      exact (payloadCmp_eq_iff_of_same a b hv).mp hp
    · rintro rfl
      exact ⟨rfl, (payloadCmp_eq_iff_of_same a a rfl).mpr rfl⟩
  · intro a b d h1 h2
    rw [cmp_lt_iff] at h1 h2 ⊢
    rcases h1 with h1 | ⟨h1, hp1⟩
    · rcases h2 with h2 | ⟨h2, _⟩
      · exact .inl (Nat.lt_trans h1 h2)
      · exact .inl (h2 ▸ h1)
    · rcases h2 with h2 | ⟨h2, hp2⟩
      · exact .inl (h1 ▸ h2)
      · exact .inr ⟨h1.trans h2, payloadLt_trans hp1 hp2⟩

end Value

/-! #### Claim C3: order of `Null` -/

/-- C3 counterexample: in the derived order of `Value`, `Null` is **not**
below every non-null value — it compares **greater** than `Boolean(false)`
(the `Null` variant is declared in the middle of the enum). -/
theorem value_null_not_below_counterexample :
    Value.cmp Value.null (Value.boolean false) = .gt ∧
    Value.boolean false ≠ Value.null := by
  exact ⟨rfl, by decide⟩

/-- C3 (amended): in the total order on `Value` used by filter comparisons
and `order_by` sorting, `Null` sits at its variant's declaration position:
it is **above** every `Blob`, `Boolean`, `Date`, `DateTime`, `Decimal`,
`Int32` and `Int64` value (variant index < 7) and **below** every
`Principal`, `Text`, `Uint32`, `Uint64` and `Uuid` value
(variant index > 7) — not below every non-null value. -/
theorem value_null_order_amended : ∀ v : Value, v ≠ Value.null →
    (v.varIdx < 7 → Value.cmp Value.null v = .gt) ∧
    (7 < v.varIdx → Value.cmp Value.null v = .lt) := by
  intro v hv
  refine ⟨fun h => ?_, fun h => ?_⟩ <;>
    (revert h; cases v <;> intro h <;>
      first
        | rfl
        | (simp [Value.varIdx] at h))

/-- Witness for C3 (amended) at `Boolean(false)` and `Text("")`. -/
theorem value_null_order_amended_witness :
    Value.cmp Value.null (Value.boolean false) = .gt ∧
    Value.cmp Value.null (Value.text []) = .lt :=
  ⟨(value_null_order_amended (Value.boolean false) (by decide)).1 (by decide),
   (value_null_order_amended (Value.text []) (by decide)).2 (by decide)⟩

/-! #### Claim C4: cross-type filter comparisons -/

/-- C4 counterexample: a `Ne` filter whose constant has a different `Value`
variant than the row's column value matches (`Ok(true)`), because the
derived `PartialEq` makes values of different variants unequal — the claim
says every cross-type comparison filter returns `false`. -/
theorem filter_cross_type_counterexample :
    Filter.matchesRow (.ne "id" (.text [120])) [(usersIdCol, .int32 5)] =
      .ok true ∧
    (Value.int32 5).varIdx ≠ (Value.text [120]).varIdx := by
  exact ⟨rfl, by decide⟩

/-- C4 (amended): on a row whose named column holds a value `v` of a
different variant than the filter constant `w`, `Filter::matches` never
errors and returns: `false` for `Eq` and `In` (cross-variant values are
never equal), `true` for `Ne`, and for `Gt`/`Lt`/`Ge`/`Le` the result of
comparing the two **variant declaration positions** (so `Ge` coincides with
`Gt` and `Le` with `Lt`: cross-variant values never compare equal). -/
theorem filter_cross_type_amended :
    ∀ (cd : ColumnDef) (f : String) (v w : Value), cd.name = f →
      v.varIdx ≠ w.varIdx →
      Filter.matchesRow (.eq f w) [(cd, v)] = .ok false ∧
      Filter.matchesRow (.ne f w) [(cd, v)] = .ok true ∧
      Filter.matchesRow (.gt f w) [(cd, v)] =
        .ok (decide (w.varIdx < v.varIdx)) ∧
      Filter.matchesRow (.lt f w) [(cd, v)] =
        .ok (decide (v.varIdx < w.varIdx)) ∧
      Filter.matchesRow (.ge f w) [(cd, v)] =
        .ok (decide (w.varIdx < v.varIdx)) ∧
      Filter.matchesRow (.le f w) [(cd, v)] =
        .ok (decide (v.varIdx < w.varIdx)) ∧
      (∀ ws : List Value, (∀ u ∈ ws, u.varIdx ≠ v.varIdx) →
        Filter.matchesRow (.inList f ws) [(cd, v)] = .ok false) := by
  intro cd f v w hname hne
  subst hname
  have hc := Value.cmp_cross hne
  have hvw : v ≠ w := Value.ne_of_varIdx_ne hne
  have hdic : ∀ a b : Nat, a ≠ b → ¬ a < b → b < a := by omega
  have hgt : (Value.cmp v w == Ordering.gt) = decide (w.varIdx < v.varIdx) := by
    rw [hc]
    by_cases h : w.varIdx < v.varIdx
    · rw [ltCmp_eq_gt.mpr h, decide_eq_true h]
      rfl
    · have hno : ltCmp v.varIdx w.varIdx ≠ .gt := fun hh => h (ltCmp_eq_gt.mp hh)
      rw [decide_eq_false h]
      cases hcc : ltCmp v.varIdx w.varIdx
      · rfl
      · rfl
      · exact absurd hcc hno
  have hlt : (Value.cmp v w == Ordering.lt) = decide (v.varIdx < w.varIdx) := by
    rw [hc]
    by_cases h : v.varIdx < w.varIdx
    · rw [ltCmp_eq_lt.mpr h, decide_eq_true h]
      rfl
    · have hno : ltCmp v.varIdx w.varIdx ≠ .lt := fun hh => h (ltCmp_eq_lt.mp hh)
      rw [decide_eq_false h]
      cases hcc : ltCmp v.varIdx w.varIdx
      · exact absurd hcc hno
      · rfl
      · rfl
  have hge : (Value.cmp v w != Ordering.lt) = decide (w.varIdx < v.varIdx) := by
    simp only [bne, hlt]
    by_cases h : v.varIdx < w.varIdx
    · rw [decide_eq_true h,
        decide_eq_false (fun hh => Nat.lt_irrefl _ (Nat.lt_trans h hh))]
      rfl
    · rw [decide_eq_false h, decide_eq_true (hdic _ _ hne h)]
      rfl
  have hle : (Value.cmp v w != Ordering.gt) = decide (v.varIdx < w.varIdx) := by
    simp only [bne, hgt]
    by_cases h : w.varIdx < v.varIdx
    · rw [decide_eq_true h,
        decide_eq_false (fun hh => Nat.lt_irrefl _ (Nat.lt_trans h hh))]
      rfl
    · rw [decide_eq_false h, decide_eq_true (hdic _ _ (Ne.symm hne) h)]
      rfl
  refine ⟨?_, ?_, ?_, ?_, ?_, ?_, ?_⟩
  · simp [Filter.matchesRow, hvw]
  · simp [Filter.matchesRow, hvw]
  · simp only [Filter.matchesRow, List.any_cons, List.any_nil,
      Bool.or_false, beq_self_eq_true, Bool.true_and, hgt]
  · simp only [Filter.matchesRow, List.any_cons, List.any_nil,
      Bool.or_false, beq_self_eq_true, Bool.true_and, hlt]
  · simp only [Filter.matchesRow, List.any_cons, List.any_nil,
      Bool.or_false, beq_self_eq_true, Bool.true_and, hge]
  · simp only [Filter.matchesRow, List.any_cons, List.any_nil,
      Bool.or_false, beq_self_eq_true, Bool.true_and, hle]
  · intro ws hws
    simp only [Filter.matchesRow, List.any_cons, List.any_nil, Bool.or_false,
      beq_self_eq_true, Bool.true_and]
    have hall : (ws.any fun u => u == v) = false := by
      rw [List.any_eq_false]
      intro u hu
      simp [Value.ne_of_varIdx_ne (hws u hu)]
    rw [hall]

/-- Witness for C4 (amended) at `v = Int32(5)`, `w = Text("x")`. -/
theorem filter_cross_type_amended_witness :
    Filter.matchesRow (.eq "id" (.text [120])) [(usersIdCol, .int32 5)] =
      .ok false ∧
    Filter.matchesRow (.lt "id" (.text [120])) [(usersIdCol, .int32 5)] =
      .ok true := by
  have h := filter_cross_type_amended usersIdCol "id" (.int32 5) (.text [120])
    rfl (by decide)
  refine ⟨h.1, ?_⟩
  rw [h.2.2.2.1]
  rfl


/-! #### Claim C5: `TableRegistry::delete` / `insert_free_segment` -/

/-- C5: `FreeSegmentsTable::insert_free_segment` never completes — after
pushing the new segment the source unconditionally executes
`todo!("Merge adjacent free segments for optimization")`, so every call
(and hence every `TableRegistry::delete`, which calls it after zeroing the
record bytes) panics instead of recording the hole.  The file's own tests
(`test_should_insert_free_segment`, and `test_should_delete_record` in
`table_registry.rs`) expect the call to succeed. -/
theorem freeSegments_insert_always_panics :
    ∀ (t : FreeSegmentsTable) (page offsetVal size : Nat),
      t.insertFreeSegment page offsetVal size =
        .panics
          "not yet implemented: Merge adjacent free segments for optimization" :=
  fun _ _ _ _ => rfl

/-! #### Claim C6: page selection for a new record -/

/-- C6: `PageLedger::get_page_for_record` tests
`page_record.free + required_size <= page_size` instead of
`required_size <= page_record.free`.  At the failing input — a page table
whose only page has `free = 0` and a 100-byte record — it returns that full
page instead of allocating a fresh one; conversely a completely free page
(`free = PAGE_SIZE`) is rejected and a fresh page is allocated beside it. -/
theorem pageLedger_free_condition_bug :
    getPageForRecord [⟨2, 0⟩] PAGE_SIZE 100 3 = .ok (2, [⟨2, 0⟩]) ∧
    getPageForRecord [⟨2, PAGE_SIZE⟩] PAGE_SIZE 100 3 =
      .ok (3, [⟨2, PAGE_SIZE⟩, ⟨3, PAGE_SIZE⟩]) ∧
    ¬ (100 : Nat) ≤ 0 := by
  refine ⟨rfl, rfl, by decide⟩

/-! #### Claim C8: `Encode` round-trip -/

/-- C8 counterexample: for a `Text` of 65534 bytes the encoded length is
65536 but `size()` — computed in `u16` arithmetic — wraps to 0, so
`encode(v).len() = v.size()` fails (the `decode(encode v) = v` half still
holds at this length). -/
theorem textSize_def (s : List Nat) :
    textSize s = (2 + s.length % 65536) % 65536 := rfl

theorem textEncode_def (s : List Nat) :
    textEncode s = toLeU16 s.length ++ s := rfl

theorem encode_roundtrip_counterexample :
    ¬ ((textDecode (textEncode (List.replicate 65534 97)) =
          .ok (List.replicate 65534 97)) ∧
        (textEncode (List.replicate 65534 97)).length =
          textSize (List.replicate 65534 97)) := by
  rintro ⟨-, h⟩
  have hlen : (textEncode (List.replicate 65534 97)).length = 65536 := by
    rw [textEncode_def, List.length_append, List.length_replicate]
    norm_num [toLeU16]
  have hsize : textSize (List.replicate 65534 97) = 0 := by
    rw [textSize_def, List.length_replicate]
  rw [hlen, hsize] at h
  exact absurd h (by decide)

/-- C8 (amended): `decode(encode v) = v` and `encode(v).len() = v.size()`
hold for every `Date` whose fields fit their machine widths, and for every
`Text` of at most 65533 bytes (so that the `u16` length header and the
`u16` size arithmetic do not overflow); for longer texts the length header
truncates. -/
theorem encode_roundtrip_amended :
    (∀ d : Date, d.year < 65536 → d.month < 256 → d.day < 256 →
      dateDecode (dateEncode d) = .ok d ∧
      (dateEncode d).length = dateSize) ∧
    (∀ s : List Nat, s.length ≤ 65533 →
      textDecode (textEncode s) = .ok s ∧
      (textEncode s).length = textSize s) := by
  constructor
  · intro d hy _ _
    refine ⟨?_, rfl⟩
    show dateDecode [d.year % 256, d.year / 256 % 256, d.month, d.day] = .ok d
    rw [dateDecode]
    have h1 : d.year / 256 % 256 = d.year / 256 :=
      Nat.mod_eq_of_lt (by omega)
    have h2 : d.year % 256 + 256 * (d.year / 256 % 256) = d.year := by
      rw [h1]; omega
    cases d
    simp_all
  · intro s hlen
    constructor
    · show textDecode (toLeU16 s.length ++ s) = .ok s
      rw [toLeU16]
      show textDecode (s.length % 256 :: s.length / 256 % 256 :: s) = .ok s
      rw [textDecode]
      have hkey : s.length % 256 + 256 * (s.length / 256 % 256) = s.length := by
        have h1 : s.length / 256 % 256 = s.length / 256 :=
          Nat.mod_eq_of_lt (by omega)
        rw [h1]; omega
      rw [hkey]
      have hno : ¬ (s.length % 256 :: s.length / 256 % 256 :: s).length <
          2 + s.length := by
        simp
        omega
      rw [if_neg hno]
      simp
    · show (toLeU16 s.length ++ s).length = (2 + s.length % 65536) % 65536
      have h1 : s.length % 65536 = s.length := Nat.mod_eq_of_lt (by omega)
      rw [h1, Nat.mod_eq_of_lt (by omega)]
      simp [toLeU16]
      omega

/-- Witness for C8 (amended) at `Date(2024-06-15)` and `Text("hi")`. -/
theorem encode_roundtrip_amended_witness :
    (dateDecode (dateEncode ⟨2024, 6, 15⟩) = .ok ⟨2024, 6, 15⟩ ∧
      (dateEncode ⟨2024, 6, 15⟩).length = dateSize) ∧
    (textDecode (textEncode [104, 105]) = .ok [104, 105] ∧
      (textEncode [104, 105]).length = textSize [104, 105]) :=
  ⟨encode_roundtrip_amended.1 ⟨2024, 6, 15⟩ (by decide) (by decide) (by decide),
   encode_roundtrip_amended.2 [104, 105] (by decide)⟩

/-! #### Claim C10: overlay insert with a conflicting base primary key -/

theorem patchRow_single_insert_other {p q : Value} {r x : Row}
    (hx : TableOverlay.rowPk x = some q) (hqp : q ≠ p) :
    TableOverlay.patchRow ⟨[.insert p r]⟩ x = some x := by
  simp only [TableOverlay.patchRow, hx]
  have hfil : (List.filter (fun op => op.primaryKeyValue == q)
      [Operation.insert p r]) = [] := by
    simp [Operation.primaryKeyValue, Ne.symm hqp]
  rw [hfil]
  rfl

theorem patchRow_single_insert_self {p : Value} {r x : Row}
    (hx : TableOverlay.rowPk x = some p) :
    TableOverlay.patchRow ⟨[.insert p r]⟩ x = some r := by
  simp only [TableOverlay.patchRow, hx]
  have hfil : (List.filter (fun op => op.primaryKeyValue == p)
      [Operation.insert p r]) = [Operation.insert p r] := by
    simp [Operation.primaryKeyValue]
  rw [hfil]
  rfl

/-- C10: if the transaction overlay holds an `Insert` whose primary key `p`
equals the key of a row `b` already present in the durable base table, the
overlaid reader yields the inserted row **twice** in one scan: once at `b`'s
position (where `patch_row` replaces `b` with the inserted row) and once
more among the appended overlay-inserted rows. -/
theorem overlay_reader_duplicate_insert :
    ∀ (pre post : List Row) (b r : Row) (p : Value),
      TableOverlay.rowPk b = some p →
      TableOverlay.rowPk r = some p →
      (∀ x ∈ pre, ∃ q, TableOverlay.rowPk x = some q ∧ q ≠ p) →
      (∀ x ∈ post, ∃ q, TableOverlay.rowPk x = some q ∧ q ≠ p) →
      TableOverlay.readAll ⟨[.insert p r]⟩ (pre ++ b :: post) =
        pre ++ r :: (post ++ [r]) := by
  intro pre post b r p hb hr hpre hpost
  have hself : TableOverlay.patchRow ⟨[.insert p r]⟩ r = some r := by
    rw [patchRow_single_insert_self hr]
  have hbrow : TableOverlay.patchRow ⟨[.insert p r]⟩ b = some r :=
    patchRow_single_insert_self hb
  have hii : (TableOverlay.mk [.insert p r]).iterInserted = [r] := by
    simp [TableOverlay.iterInserted, hself]
  have hnil : TableOverlay.readAll ⟨[.insert p r]⟩ [] = [r] := by
    simp [TableOverlay.readAll, hii, hself]
  have htail : ∀ l : List Row,
      (∀ x ∈ l, ∃ q, TableOverlay.rowPk x = some q ∧ q ≠ p) →
      TableOverlay.readAll ⟨[.insert p r]⟩ l = l ++ [r] := by
    intro l hl
    induction l with
    | nil => simpa using hnil
    | cons x xs ih =>
      obtain ⟨q, hq, hqp⟩ := hl x (List.mem_cons_self x xs)
      show TableOverlay.readAll ⟨[.insert p r]⟩ (x :: xs) = x :: (xs ++ [r])
      simp only [TableOverlay.readAll, patchRow_single_insert_other hq hqp]
      exact congrArg (x :: ·)
        (ih fun y hy => hl y (List.mem_cons_of_mem _ hy))
  have hmid : TableOverlay.readAll ⟨[.insert p r]⟩ (b :: post) =
      r :: (post ++ [r]) := by
    simp only [TableOverlay.readAll, hbrow]
    exact congrArg (r :: ·) (htail post hpost)
  induction pre with
  | nil => simpa using hmid
  | cons x xs ih =>
    obtain ⟨q, hq, hqp⟩ := hpre x (List.mem_cons_self x xs)
    show TableOverlay.readAll ⟨[.insert p r]⟩ (x :: (xs ++ b :: post)) =
      x :: (xs ++ r :: (post ++ [r]))
    simp only [TableOverlay.readAll, patchRow_single_insert_other hq hqp]
    exact congrArg (x :: ·)
      (ih (fun y hy => hpre y (List.mem_cons_of_mem _ hy)))

/-- Witness for C10: base table `[users{1,"A"}]`, overlay
`Insert(1, users{1,"B"})` — the scan yields `users{1,"B"}` twice. -/
theorem overlay_reader_duplicate_insert_witness :
    TableOverlay.readAll ⟨[.insert (.uint32 1) (userRow 1 [66])]⟩
        [userRow 1 [65]] =
      [userRow 1 [66], userRow 1 [66]] := by
  have h := overlay_reader_duplicate_insert [] [] (userRow 1 [65])
    (userRow 1 [66]) (.uint32 1) rfl rfl
    (by intro x hx; cases hx) (by intro x hx; cases hx)
  simpa using h

/-! #### Claim C2: broken foreign-key reference on insert -/

theorem selectLoop_all_unmatched (proj : Row → Except IcDbmsError TableColumns)
    (f : Filter) (ob : List (String × OrderDirection))
    (lim off : Option Nat) :
    ∀ (rows : List Row), (∀ r ∈ rows, f.matchesRow r = .ok false) →
    ∀ count resLen,
      selectLoop proj ⟨some f, ob, lim, off⟩ rows count resLen = .ok [] := by
  intro rows hrows
  induction rows with
  | nil => intro count resLen; rfl
  | cons r rest ih =>
    intro count resLen
    have hr := hrows r (List.mem_cons_self r rest)
    simp only [selectLoop, hr]
    exact ih (fun y hy => hrows y (List.mem_cons_of_mem _ hy)) count resLen

theorem selectRows_all_unmatched (proj : Row → Except IcDbmsError TableColumns)
    (f : Filter) (lim off : Option Nat) (rows : List Row)
    (h : ∀ r ∈ rows, f.matchesRow r = .ok false) :
    selectRows proj ⟨some f, [], lim, off⟩ rows = .ok [] := by
  unfold selectRows
  rw [selectLoop_all_unmatched proj f [] lim off rows h 0 0]
  rfl

/-- C2: inserting a `posts` row whose `user_id` has no matching `users` row
(against the overlaid view the validator's selects read) fails with
`BrokenForeignKeyReference{table: "users", key}` — the error is raised by
the table's `ForeignFetcher` when its pk-filtered select of the foreign
table comes back empty, and propagates through
`check_foreign_key_existence`'s `?`.  The hypotheses say the new pk does not
conflict and no user row carries the key. -/
theorem insert_broken_fk_reference :
    ∀ (db : TestDB) (idv titlev contentv key : Value),
      (∀ r ∈ db.posts, Filter.matchesRow (.eq "id" idv) r = .ok false) →
      (∀ r ∈ db.users, Filter.matchesRow (.eq "id" key) r = .ok false) →
      postsValidateInsert db (postRowV idv titlev contentv key) =
        .error (.query (.brokenForeignKeyReference "users" key)) := by
  intro db idv titlev contentv key hposts husers
  have h1 : checkPrimaryKeyConflict "id" db.posts
      (postRowV idv titlev contentv key) = .ok () := by
    show (match selectRows (projColumns ["id"])
        { filter := some (.eq "id" idv), orderBy := [], limit := none,
          offset := none } db.posts with
      | Except.error e => (Except.error e : Except IcDbmsError Unit)
      | Except.ok res => if res.isEmpty then Except.ok ()
          else Except.error (.query .primaryKeyConflict)) = Except.ok ()
    rw [selectRows_all_unmatched _ _ _ _ _ hposts]
    rfl
  have hfetch : postFetch db "users" "user_id" key =
      .error (.query (.brokenForeignKeyReference "users" key)) := by
    unfold postFetch
    rw [if_neg (fun h => h rfl)]
    rw [selectRows_all_unmatched _ _ _ _ _ husers]
    rfl
  have hexist : checkForeignKeyExistence (postFetch db) postsUserFk key =
      .error (.query (.brokenForeignKeyReference "users" key)) := by
    unfold checkForeignKeyExistence
    rw [show postsUserFk.foreignTable = "users" from rfl,
      show postsUserFk.localColumn = "user_id" from rfl, hfetch]
  have h2 : checkForeignKeys (postFetch db)
      (postRowV idv titlev contentv key) =
      .error (.query (.brokenForeignKeyReference "users" key)) := by
    show (match checkForeignKeyExistence (postFetch db) postsUserFk key with
      | Except.error e => (Except.error e : Except IcDbmsError Unit)
      | Except.ok _ => checkForeignKeys (postFetch db) []) =
      Except.error (.query (.brokenForeignKeyReference "users" key))
    rw [hexist]
  unfold postsValidateInsert validateInsertRecord
  rw [h1, h2]

/-- Witness for C2 at the spec's scenario 3: only `users{1,"Alice"}`
present, insert `posts{id=10, title="T", content="C", user_id=99}`. -/
theorem insert_broken_fk_reference_witness :
    postsValidateInsert ⟨[userRow 1 [65, 108, 105, 99, 101]], []⟩
        (postRowV (.uint32 10) (.text [84]) (.text [67]) (.uint32 99)) =
      .error (.query (.brokenForeignKeyReference "users" (.uint32 99))) := by
  have h := insert_broken_fk_reference
    ⟨[userRow 1 [65, 108, 105, 99, 101]], []⟩
    (.uint32 10) (.text [84]) (.text [67]) (.uint32 99)
    (by intro r hr; cases hr)
    (by intro r hr
        rw [List.mem_singleton] at hr
        subst hr
        rfl)
  exact h



/-! #### Claim C1: commit error handling -/

/-- C1 counterexample: replaying the op log
`[Insert users{2,"B"}, Insert users{1,"C"}]` against a store already holding
`users{1,"A"}` first **durably applies** the insert of user 2, then the
`validate_insert` of user 1 fails with `PrimaryKeyConflict` — and commit
**returns** that error to the caller (`?` on `validate_insert`,
`dbms.rs` line 552) instead of trapping, leaving user 2 applied. -/
theorem commit_validation_error_returned_counterexample :
    commitOps usersSchema ⟨[userRow 1 [65]], []⟩
        [.insert "users" (userRow 2 [66]), .insert "users" (userRow 1 [67])] =
      .reported (.query .primaryKeyConflict)
        ⟨[userRow 1 [65], userRow 2 [66]], []⟩ := rfl

/-- C1 (amended): during commit the ops are replayed in log order,
`validate_insert` runs before each `Insert` and each application is wrapped
in `atomic`; an error raised by the atomic application traps the process,
**but** a `validate_insert` failure during the replay is returned to the
caller — possibly after earlier ops of the same commit have already been
durably applied.  Part 1: a clean replay commits normally.  Part 2: every
returned (non-trap) error stems from a `validate_insert` failure of some
`Insert` op, with all preceding ops durably applied.  Part 3: every trap
stems from an atomic application failure, again after the preceding ops
were applied. -/
theorem commit_error_handling_amended {State : Type}
    (sch : DatabaseSchemaModel State) :
    ∀ (ops : List TransactionOp) (s : State),
      (∀ s', ReplayOk sch s ops s' → commitOps sch s ops = .ok s') ∧
      (∀ e s', commitOps sch s ops = .reported e s' →
        ∃ pre table values rest,
          ops = pre ++ .insert table values :: rest ∧
          ReplayOk sch s pre s' ∧
          sch.validateInsert s' table values = .error e) ∧
      (∀ e s', commitOps sch s ops = .trapped e s' →
        ∃ pre op rest, ops = pre ++ op :: rest ∧ ReplayOk sch s pre s' ∧
          ((∃ table values, op = .insert table values ∧
              sch.validateInsert s' table values = .ok () ∧
              sch.insert s' table values = .error e) ∨
           (∃ table b f, op = .delete table b f ∧
              sch.delete s' table b f = .error e) ∨
           (∃ table p f, op = .update table p f ∧
              sch.update s' table p f = .error e))) := by
  intro ops
  induction ops with
  | nil =>
    intro s
    refine ⟨?_, ?_, ?_⟩
    · intro s' h
      cases h
      rfl
    · intro e s' h
      simp [commitOps] at h
    · intro e s' h
      simp [commitOps] at h
  | cons op rest ih =>
    intro s
    refine ⟨?_, ?_, ?_⟩
    · intro s' h
      cases h with
      | insert hval hins hrest =>
        simp only [commitOps, hval, hins]
        exact (ih _).1 _ hrest
      | delete hdel hrest =>
        simp only [commitOps, hdel]
        exact (ih _).1 _ hrest
      | update hupd hrest =>
        simp only [commitOps, hupd]
        exact (ih _).1 _ hrest
    · intro e s' h
      cases op with
      | insert t v =>
        cases hval : sch.validateInsert s t v with
        | error e' =>
          simp only [commitOps, hval] at h
          cases h
          exact ⟨[], t, v, rest, rfl, .nil, hval⟩
        | ok u =>
          cases u
          cases hins : sch.insert s t v with
          | error e' =>
            simp only [commitOps, hval, hins] at h
            cases h
          | ok s₁ =>
            simp only [commitOps, hval, hins] at h
            obtain ⟨pre, t', v', rest', hops, hrep, hv⟩ := (ih s₁).2.1 e s' h
            exact ⟨.insert t v :: pre, t', v', rest', by rw [hops]; rfl,
              .insert hval hins hrep, hv⟩
      | delete t b f =>
        cases hdel : sch.delete s t b f with
        | error e' =>
          simp only [commitOps, hdel] at h
          cases h
        | ok s₁ =>
          simp only [commitOps, hdel] at h
          obtain ⟨pre, t', v', rest', hops, hrep, hv⟩ := (ih s₁).2.1 e s' h
          exact ⟨.delete t b f :: pre, t', v', rest', by rw [hops]; rfl,
            .delete hdel hrep, hv⟩
      | update t p f =>
        cases hupd : sch.update s t p f with
        | error e' =>
          simp only [commitOps, hupd] at h
          cases h
        | ok s₁ =>
          simp only [commitOps, hupd] at h
          obtain ⟨pre, t', v', rest', hops, hrep, hv⟩ := (ih s₁).2.1 e s' h
          exact ⟨.update t p f :: pre, t', v', rest', by rw [hops]; rfl,
            .update hupd hrep, hv⟩
    · intro e s' h
      cases op with
      | insert t v =>
        cases hval : sch.validateInsert s t v with
        | error e' =>
          simp only [commitOps, hval] at h
          cases h
        | ok u =>
          cases u
          cases hins : sch.insert s t v with
          | error e' =>
            simp only [commitOps, hval, hins] at h
            cases h
            exact ⟨[], .insert t v, rest, rfl, .nil,
              .inl ⟨t, v, rfl, hval, hins⟩⟩
          | ok s₁ =>
            simp only [commitOps, hval, hins] at h
            obtain ⟨pre, op', rest', hops, hrep, hv⟩ := (ih s₁).2.2 e s' h
            exact ⟨.insert t v :: pre, op', rest', by rw [hops]; rfl,
              .insert hval hins hrep, hv⟩
      | delete t b f =>
        cases hdel : sch.delete s t b f with
        | error e' =>
          simp only [commitOps, hdel] at h
          cases h
          exact ⟨[], .delete t b f, rest, rfl, .nil,
            .inr (.inl ⟨t, b, f, rfl, hdel⟩)⟩
        | ok s₁ =>
          simp only [commitOps, hdel] at h
          obtain ⟨pre, op', rest', hops, hrep, hv⟩ := (ih s₁).2.2 e s' h
          exact ⟨.delete t b f :: pre, op', rest', by rw [hops]; rfl,
            .delete hdel hrep, hv⟩
      | update t p f =>
        cases hupd : sch.update s t p f with
        | error e' =>
          simp only [commitOps, hupd] at h
          cases h
          exact ⟨[], .update t p f, rest, rfl, .nil,
            .inr (.inr ⟨t, p, f, rfl, hupd⟩)⟩
        | ok s₁ =>
          simp only [commitOps, hupd] at h
          obtain ⟨pre, op', rest', hops, hrep, hv⟩ := (ih s₁).2.2 e s' h
          exact ⟨.update t p f :: pre, op', rest', by rw [hops]; rfl,
            .update hupd hrep, hv⟩

/-- Witness for C1 (amended): committing a single valid insert into an
empty `users` store succeeds and appends the row. -/
theorem commit_error_handling_amended_witness :
    commitOps usersSchema ⟨[], []⟩ [.insert "users" (userRow 1 [65])] =
      .ok ⟨[userRow 1 [65]], []⟩ :=
  (commit_error_handling_amended usersSchema
    [.insert "users" (userRow 1 [65])] ⟨[], []⟩).1 _
    (.insert rfl rfl .nil)



/-! #### Claim C9: select with offset and limit -/

theorem selectLoop_cons (proj : Row → Except IcDbmsError TableColumns)
    (q : QuerySpec) (r : Row) (rest : List Row) (count resLen : Nat) :
    selectLoop proj q (r :: rest) count resLen =
      match (match q.filter with
        | some f =>
          match f.matchesRow r with
          | .ok b => Except.ok b
          | .error e => Except.error (IcDbmsError.query e)
        | none => Except.ok true) with
      | .error e => .error e
      | .ok false => selectLoop proj q rest count resLen
      | .ok true =>
        if q.offset.elim false (fun o => decide (count + 1 ≤ o)) then
          selectLoop proj q rest (count + 1) resLen
        else
          match proj r with
          | .error e => .error e
          | .ok cols =>
            if q.limit.elim false (fun l => decide (resLen + 1 ≥ l)) then
              .ok [cols]
            else
              match selectLoop proj q rest (count + 1) (resLen + 1) with
              | .error e => .error e
              | .ok tail => .ok (cols :: tail) := rfl

theorem selectLoop_drop_take (ob : List (String × OrderDirection))
    (f : Option Filter) (o l : Nat) :
    ∀ (rows : List Row),
      (∀ r ∈ rows, ∀ f', f = some f' → ∃ b, f'.matchesRow r = .ok b) →
      ∀ count resLen, resLen < l →
      selectLoop projAll ⟨f, ob, some l, some o⟩ rows count resLen =
        .ok ((((rows.filter (matchesB f)).drop (o - count)).take
          (l - resLen)).map fun r => [(ValuesSource.this, r)]) := by
  intro rows
  induction rows with
  | nil =>
    intro _ count resLen _
    simp [selectLoop]
  | cons r rest ih =>
    intro hrows count resLen hres
    have hrest := fun y hy => hrows y (List.mem_cons_of_mem _ hy)
    have hmb : (match f with
        | some f0 =>
          match f0.matchesRow r with
          | .ok b => Except.ok b
          | .error e => Except.error (IcDbmsError.query e)
        | none => Except.ok true) = Except.ok (matchesB f r) := by
      cases f with
      | none => rfl
      | some f0 =>
        obtain ⟨b, hb⟩ := hrows r (List.mem_cons_self r rest) f0 rfl
        show (match f0.matchesRow r with
          | .ok b => Except.ok b
          | .error e => Except.error (IcDbmsError.query e)) =
          Except.ok (matchesB (some f0) r)
        rw [hb]
        simp [matchesB, hb]
    rw [selectLoop_cons, hmb]
    cases hB : matchesB f r with
    | false =>
      show selectLoop projAll ⟨f, ob, some l, some o⟩ rest count resLen = _
      rw [ih hrest count resLen hres,
        List.filter_cons_of_neg (by simp [hB])]
    | true =>
      have hfil : List.filter (matchesB f) (r :: rest) =
          r :: List.filter (matchesB f) rest :=
        List.filter_cons_of_pos hB
      by_cases hskip : count + 1 ≤ o
      · have hcond : ((some o).elim false fun o' =>
            decide (count + 1 ≤ o')) = true := decide_eq_true hskip
        rw [hcond, if_pos rfl,
          ih hrest (count + 1) resLen hres, hfil,
          show o - count = (o - (count + 1)) + 1 by omega,
          List.drop_succ_cons]
      · have hcond : ((some o).elim false fun o' =>
            decide (count + 1 ≤ o')) = false := decide_eq_false hskip
        rw [hcond, if_neg (by simp)]
        show (if ((some l).elim false fun l' => decide (resLen + 1 ≥ l'))
            then Except.ok [[(ValuesSource.this, r)]]
            else
              match selectLoop projAll ⟨f, ob, some l, some o⟩ rest
                  (count + 1) (resLen + 1) with
              | .error e => .error e
              | .ok tail => .ok ([(ValuesSource.this, r)] :: tail)) = _
        by_cases hlim : resLen + 1 ≥ l
        · have hcl : ((some l).elim false fun l' =>
              decide (resLen + 1 ≥ l')) = true := decide_eq_true hlim
          rw [hcl, if_pos rfl, hfil,
            show o - count = 0 by omega,
            List.drop_zero,
            show l - resLen = 1 by omega]
          rfl
        · have hcl : ((some l).elim false fun l' =>
              decide (resLen + 1 ≥ l')) = false := decide_eq_false hlim
          rw [hcl, if_neg (by simp),
            ih hrest (count + 1) (resLen + 1) (by omega), hfil,
            show o - count = 0 by omega,
            show o - (count + 1) = 0 by omega,
            List.drop_zero, List.drop_zero,
            show l - resLen = (l - (resLen + 1)) + 1 by omega,
            List.take_succ_cons]
          rfl

/-- C9 counterexample: with `limit = 0` the select still returns the first
post-offset match, because `select` checks the limit only **after** pushing
a row (`results.len() >= limit` with `len = 1 >= 0`), whereas the claim
("exactly the rows at match positions o+1..o+l", i.e. none for `l = 0`)
demands an empty result. -/
theorem select_limit_zero_counterexample :
    selectRows projAll ⟨none, [], some 0, some 0⟩ [userRow 1 [65]] =
      .ok [[(ValuesSource.this, userRow 1 [65])]] ∧
    selectRows projAll ⟨none, [], some 0, some 0⟩ [userRow 1 [65]] ≠
      .ok [] := by
  refine ⟨rfl, fun h => ?_⟩
  have h2 := Except.ok.inj
    ((rfl : selectRows projAll ⟨none, [], some 0, some 0⟩
      [userRow 1 [65]] = .ok [[(ValuesSource.this, userRow 1 [65])]]).symm.trans
      h)
  exact absurd h2 (by simp)

/-- C9 (amended): for every select with offset `o` and limit `l ≥ 1` (no
ordering clause) whose filter evaluates without error on every row the
reader yields, the result is exactly the filter-matching rows at match
positions `o+1 .. o+l`, in reader order — `limit 0` behaves like
`limit 1` because the limit is only checked after a match is accumulated. -/
theorem select_offset_limit_amended :
    ∀ (rows : List Row) (f : Option Filter) (o l : Nat), 1 ≤ l →
      (∀ r ∈ rows, ∀ f', f = some f' → ∃ b, f'.matchesRow r = .ok b) →
      selectRows projAll ⟨f, [], some l, some o⟩ rows =
        .ok ((((rows.filter (matchesB f)).drop o).take l).map
          fun r => [(ValuesSource.this, r)]) := by
  intro rows f o l hl hrows
  unfold selectRows
  rw [selectLoop_drop_take [] f o l rows hrows 0 0 (by omega)]
  simp

/-- Witness for C9 (amended), the spec's scenario 8: after inserting
`users{0..9}`, `select users offset 2 limit 3` returns ids `[2,3,4]`. -/
theorem select_offset_limit_amended_witness :
    selectRows projAll ⟨none, [], some 3, some 2⟩
        ((List.range 10).map fun i => userRow i [65]) =
      .ok [[(ValuesSource.this, userRow 2 [65])],
           [(ValuesSource.this, userRow 3 [65])],
           [(ValuesSource.this, userRow 4 [65])]] := by
  have h := select_offset_limit_amended
    ((List.range 10).map fun i => userRow i [65]) none 2 3 (by omega)
    (by intro r hr f' hf; cases hf)
  rw [h]
  rfl



/-! #### Claim C7: order_by sorting -/

theorem cmpResults_eq_key (column : String) (direction : OrderDirection)
    (a b : TableColumns) :
    cmpResults column direction a b =
      optValueCmp direction (resultThisValue a column)
        (resultThisValue b column) := rfl

theorem isCmp_optValueCmp (direction : OrderDirection) :
    IsCmp (optValueCmp direction) := by
  refine ⟨?_, ?_, ?_⟩
  · intro a b
    cases a <;> cases b <;> cases direction <;>
      first
        | rfl
        | exact Value.isCmp_valueCmp.swap_eq _ _
  · intro a b
    cases a with
    | none => cases b <;> cases direction <;> simp [optValueCmp]
    | some x =>
      cases b with
      | none => cases direction <;> simp [optValueCmp]
      | some y =>
        cases direction
        · rw [show optValueCmp .ascending (some x) (some y) =
              Value.cmp x y from rfl, Value.isCmp_valueCmp.eq_iff]
          simp
        · rw [show optValueCmp .descending (some x) (some y) =
              Value.cmp y x from rfl, Value.isCmp_valueCmp.eq_iff]
          constructor
          · intro h
            rw [h]
          · intro h
            injection h with h
            rw [h]
  · intro a b d h1 h2
    cases a <;> cases b <;> cases d <;> cases direction <;>
      simp only [optValueCmp] at h1 h2 ⊢ <;>
      first
        | rfl
        | exact Ordering.noConfusion h1
        | exact Ordering.noConfusion h2
        | exact Value.isCmp_valueCmp.lt_trans h1 h2
        | exact Value.isCmp_valueCmp.lt_trans h2 h1

section KeySort

variable {α κ : Type _} (key : α → κ) (c : κ → κ → Ordering)

theorem keySort_total (hc : IsCmp c) :
    ∀ a b : α, c (key a) (key b) ≠ .gt ∨ c (key b) (key a) ≠ .gt := by
  intro a b
  by_cases h : c (key a) (key b) = .gt
  · right
    rw [hc.swap_eq, h]
    decide
  · left
    exact h

theorem keySort_trans (hc : IsCmp c) :
    ∀ a b d : α, c (key a) (key b) ≠ .gt → c (key b) (key d) ≠ .gt →
      c (key a) (key d) ≠ .gt := by
  intro a b d h1 h2
  cases hab : c (key a) (key b) with
  | gt => exact absurd hab h1
  | eq =>
    rw [hc.eq_iff] at hab
    rw [hab]
    exact h2
  | lt =>
    cases hbd : c (key b) (key d) with
    | gt => exact absurd hbd h2
    | eq =>
      rw [hc.eq_iff] at hbd
      rw [← hbd]
      exact h1
    | lt =>
      have h3 := hc.lt_trans hab hbd
      intro hgt
      rw [h3] at hgt
      cases hgt

theorem orderedInsert_decomp (r : α → α → Prop) [DecidableRel r] (x : α) :
    ∀ l : List α, ∃ l₁ l₂, List.orderedInsert r x l = l₁ ++ x :: l₂ ∧
      l = l₁ ++ l₂ ∧ ∀ y ∈ l₁, ¬ r x y := by
  intro l
  induction l with
  | nil => exact ⟨[], [], rfl, rfl, by simp⟩
  | cons y ys ih =>
    by_cases h : r x y
    · exact ⟨[], y :: ys, by simp [List.orderedInsert, h], rfl, by simp⟩
    · obtain ⟨l₁, l₂, he, hl, hny⟩ := ih
      refine ⟨y :: l₁, l₂, ?_, ?_, ?_⟩
      · simp only [List.orderedInsert, if_neg h, he, List.cons_append]
      · rw [List.cons_append, ← hl]
      · intro z hz
        rcases List.mem_cons.mp hz with hz | hz
        · rw [hz]
          exact h
        · exact hny z hz

theorem keySort_filter_eq [BEq κ] [LawfulBEq κ] (hc : IsCmp c) (k₀ : κ) :
    ∀ l : List α,
      (List.insertionSort (fun a b => c (key a) (key b) ≠ .gt) l).filter
          (fun a => key a == k₀) =
        l.filter (fun a => key a == k₀) := by
  intro l
  induction l with
  | nil => rfl
  | cons x xs ih =>
    show (List.orderedInsert (fun a b => c (key a) (key b) ≠ .gt) x
        (List.insertionSort (fun a b => c (key a) (key b) ≠ .gt) xs)).filter
          (fun a => key a == k₀) =
      (x :: xs).filter (fun a => key a == k₀)
    obtain ⟨l₁, l₂, he, hl, hny⟩ :=
      orderedInsert_decomp (fun a b => c (key a) (key b) ≠ .gt) x
        (List.insertionSort (fun a b => c (key a) (key b) ≠ .gt) xs)
    rw [he, List.filter_append]
    have hxs : List.filter (fun a => key a == k₀) xs =
        List.filter (fun a => key a == k₀) l₁ ++
          List.filter (fun a => key a == k₀) l₂ := by
      rw [← List.filter_append, ← hl, ih]
    by_cases hx : key x = k₀
    · have hl₁ : l₁.filter (fun a => key a == k₀) = [] := by
        rw [List.filter_eq_nil_iff]
        intro y hy
        have hgt : c (key x) (key y) = .gt := by
          by_contra hne
          exact hny y hy hne
        intro hyk
        rw [beq_iff_eq] at hyk
        rw [(hc.eq_iff (key x) (key y)).mpr (by rw [hx, hyk])] at hgt
        cases hgt
      rw [hl₁, List.filter_cons_of_pos (by simp [hx]),
        List.filter_cons_of_pos (by simp [hx]), hxs, hl₁]
      rfl
    · rw [List.filter_cons_of_neg (by simp [hx]),
        List.filter_cons_of_neg (by simp [hx]), hxs]

end KeySort

/-- C7 counterexample: under `Ascending` ordering a row lacking the ordered
column sorts **first**, not last — the comparator returns `Less` whenever
the left row's column is absent, regardless of direction. -/
theorem sort_absent_first_counterexample :
    sortQueryResults "name" .ascending
        [[(ValuesSource.this, userRow 1 [65])],
         [(ValuesSource.this, [(usersIdCol, .uint32 2)])]] =
      [[(ValuesSource.this, [(usersIdCol, .uint32 2)])],
       [(ValuesSource.this, userRow 1 [65])]] ∧
    resultThisValue [(ValuesSource.this, [(usersIdCol, .uint32 2)])] "name" =
      none ∧
    resultThisValue [(ValuesSource.this, userRow 1 [65])] "name" =
      some (.text [65]) := ⟨rfl, rfl, rfl⟩

/-- C7 (amended): for each `(column, direction)` of `order_by`, `select`
stable-sorts the accumulated results by the natural `Value` ordering of that
column (reversed for `Descending`); rows in which the ordered column is
absent are placed **first** for both directions.  Formally, for every result
list: the sort is a permutation; its output is pairwise non-descending under
the comparator; the comparator puts every absent-column row strictly below
every present-column row regardless of direction; and the sort is stable —
rows with equal sort keys keep their relative order (the filter by any fixed
key value is unchanged). -/
theorem sort_query_results_amended :
    ∀ (results : List TableColumns) (column : String)
      (direction : OrderDirection),
      (sortQueryResults column direction results).Perm results ∧
      List.Pairwise (fun a b => cmpResults column direction a b ≠ .gt)
        (sortQueryResults column direction results) ∧
      (∀ a b : TableColumns, resultThisValue a column = none →
        resultThisValue b column ≠ none →
        cmpResults column direction a b = .lt) ∧
      (∀ k : Option Value,
        (sortQueryResults column direction results).filter
            (fun a => resultThisValue a column == k) =
          results.filter (fun a => resultThisValue a column == k)) := by
  intro results column direction
  have hc := isCmp_optValueCmp direction
  refine ⟨?_, ?_, ?_, ?_⟩
  · exact List.perm_insertionSort _ results
  · haveI : IsTotal TableColumns
        (fun a b => cmpResults column direction a b ≠ .gt) :=
      ⟨keySort_total (fun res => resultThisValue res column)
        (optValueCmp direction) hc⟩
    haveI : IsTrans TableColumns
        (fun a b => cmpResults column direction a b ≠ .gt) :=
      ⟨keySort_trans (fun res => resultThisValue res column)
        (optValueCmp direction) hc⟩
    exact List.sorted_insertionSort _ results
  · intro a b ha hb
    rw [cmpResults_eq_key, ha]
    cases hbv : resultThisValue b column with
    | none => exact absurd hbv hb
    | some bv => rfl
  · intro k
    exact keySort_filter_eq (fun res => resultThisValue res column)
      (optValueCmp direction) hc k results

/-- Witness: the amended C7 theorem instantiated at a concrete pair of
results — a row without a `name` column compares `Less` than one with a
`name` value, under `Ascending`. -/
theorem sort_query_results_amended_witness :
    cmpResults "name" OrderDirection.ascending
        [(ValuesSource.this, [(usersIdCol, Value.uint32 2)])]
        [(ValuesSource.this, userRow 1 [65])] = Ordering.lt :=
  (sort_query_results_amended [] "name" .ascending).2.2.1
    [(ValuesSource.this, [(usersIdCol, .uint32 2)])]
    [(ValuesSource.this, userRow 1 [65])] rfl (by decide)

end IcDbms